import Mathlib

/-!
# Matrix3 (vl/Matrix3.hpp): a shallow embedding and its properties

The template class `vl::Matrix3<T_scalar>` stores nine scalars as three
column vectors `mVec[0..2]`; `e(i,j)` is `mVec[j][i]`.  The scalar type is a
type parameter here as well: every definition asks only for the operations
the C++ body uses, so the same definitions run on integers, rationals or
integers modulo a power of two.

Indices are `Fin 3`: the source leaves indices outside `0..2` undefined.
The loops `for(int i=0; i<3; ++i) for(int j=0; j<3; ++j)` are folds over
`[0, 1, 2]` threading the object that the loop body mutates.
-/

namespace vl

/-! ## Vector3 (the column type; only what Matrix3.hpp uses of it) -/

/-- Modelled from the spec: the 3-component vector type (vl/Vector3.hpp is not
among the sources), three scalars x, y, z; one column of a Matrix3. -/
@[ext]
structure Vector3 (T : Type) where
  x : T
  y : T
  z : T
  deriving DecidableEq

/-- Modelled from the spec: component read `v[i]` of a 3-component vector. -/
def Vector3.get {T : Type} (v : Vector3 T) (i : Fin 3) : T :=
  match i with
  | 0 => v.x
  | 1 => v.y
  | 2 => v.z

/-- Modelled from the spec: component write `v[i] = a` of a 3-component vector. -/
def Vector3.set {T : Type} (v : Vector3 T) (i : Fin 3) (a : T) : Vector3 T :=
  match i with
  | 0 => { v with x := a }
  | 1 => { v with y := a }
  | 2 => { v with z := a }

/-! ## Matrix3: storage and accessors -/

/-- The member `Vector3<T_scalar> mVec[3]`: three columns. -/
@[ext]
structure Matrix3 (T : Type) where
  mVec0 : Vector3 T
  mVec1 : Vector3 T
  mVec2 : Vector3 T
  deriving DecidableEq

/-- Column read `mVec[j]`. -/
def Matrix3.mVec {T : Type} (m : Matrix3 T) (j : Fin 3) : Vector3 T :=
  match j with
  | 0 => m.mVec0
  | 1 => m.mVec1
  | 2 => m.mVec2

/-- Column write `mVec[j] = c`. -/
def Matrix3.setVec {T : Type} (m : Matrix3 T) (j : Fin 3) (c : Vector3 T) : Matrix3 T :=
  match j with
  | 0 => { m with mVec0 := c }
  | 1 => { m with mVec1 := c }
  | 2 => { m with mVec2 := c }

/-- Element read `e(i,j)`, which is `mVec[j][i]`. -/
def Matrix3.e {T : Type} (m : Matrix3 T) (i j : Fin 3) : T :=
  (m.mVec j).get i

/-- Element write `e(i,j) = a`, which is `mVec[j][i] = a`. -/
def Matrix3.setE {T : Type} (m : Matrix3 T) (i j : Fin 3) (a : T) : Matrix3 T :=
  m.setVec j ((m.mVec j).set i a)

/-- Element read through the private `operator[]`: `m[i][j]` is `mVec[i][j]`. -/
def Matrix3.bracket {T : Type} (m : Matrix3 T) (i j : Fin 3) : T :=
  (m.mVec i).get j

/-- Element write through the private `operator[]`: `t[i][j] = a`. -/
def Matrix3.setBracket {T : Type} (m : Matrix3 T) (i j : Fin 3) (a : T) : Matrix3 T :=
  m.setVec i ((m.mVec i).set j a)

/-- The values taken by a loop counter in `for(int i=0; i<3; ++i)`. -/
def range3 : List (Fin 3) := [0, 1, 2]

/-- The nested loop `for i (for j body)`: the body updates the state `s`. -/
def forIJ {σ : Type} (body : Fin 3 → Fin 3 → σ → σ) (s : σ) : σ :=
  range3.foldl (fun s i => range3.foldl (fun s j => body i j s) s) s

/-! ## Constructors, identity, null -/

/-- The method `setIdentity()`: the block copy of
`I3d = {1,0,0, 0,1,0, 0,0,1}` over the nine scalars of `mVec`. -/
def Matrix3.setIdentity {T : Type} [Zero T] [One T] (_self : Matrix3 T) : Matrix3 T :=
  { mVec0 := ⟨1, 0, 0⟩, mVec1 := ⟨0, 1, 0⟩, mVec2 := ⟨0, 0, 1⟩ }

/-- The default constructor `Matrix3()`, whose body is `setIdentity()`; the
storage it overwrites is irrelevant, the block copy replaces all of it. -/
def Matrix3.new {T : Type} [Zero T] [One T] : Matrix3 T :=
  Matrix3.setIdentity { mVec0 := ⟨0, 0, 0⟩, mVec1 := ⟨0, 0, 0⟩, mVec2 := ⟨0, 0, 0⟩ }

/-- The static `getIdentity()`: `return Matrix3();`. -/
def Matrix3.getIdentity {T : Type} [Zero T] [One T] : Matrix3 T :=
  Matrix3.new

/-- The body of the nine-argument constructor run on storage `raw`:
`e(0,0) = e00; e(1,0) = e01; e(2,0) = e02; e(0,1) = e10; ...`. -/
def Matrix3.assign9 {T : Type} (raw : Matrix3 T)
    (e00 e01 e02 e10 e11 e12 e20 e21 e22 : T) : Matrix3 T :=
  let m := raw.setE 0 0 e00
  let m := m.setE 1 0 e01
  let m := m.setE 2 0 e02
  let m := m.setE 0 1 e10
  let m := m.setE 1 1 e11
  let m := m.setE 2 1 e12
  let m := m.setE 0 2 e20
  let m := m.setE 1 2 e21
  let m := m.setE 2 2 e22
  m

/-- The explicit constructor `Matrix3(e00, e01, e02, e10, e11, e12, e20, e21, e22)`.
The member array starts zero filled and the body then assigns all nine
elements (the starting content never shows, see `Matrix3.assign9_raw`). -/
def Matrix3.ctor9 {T : Type} [Zero T]
    (e00 e01 e02 e10 e11 e12 e20 e21 e22 : T) : Matrix3 T :=
  Matrix3.assign9 { mVec0 := ⟨0, 0, 0⟩, mVec1 := ⟨0, 0, 0⟩, mVec2 := ⟨0, 0, 0⟩ }
    e00 e01 e02 e10 e11 e12 e20 e21 e22

/-- The method `fill(val)`: the chained assignment
`e(0,0) = e(1,0) = e(2,0) = e(0,1) = ... = e(2,2) = val`, rightmost first. -/
def Matrix3.fill {T : Type} (self : Matrix3 T) (val : T) : Matrix3 T :=
  let m := self.setE 2 2 val
  let m := m.setE 1 2 val
  let m := m.setE 0 2 val
  let m := m.setE 2 1 val
  let m := m.setE 1 1 val
  let m := m.setE 0 1 val
  let m := m.setE 2 0 val
  let m := m.setE 1 0 val
  let m := m.setE 0 0 val
  m

/-- The method `setNull()`: `fill(0)`. -/
def Matrix3.setNull {T : Type} [Zero T] (self : Matrix3 T) : Matrix3 T :=
  self.fill 0

/-- The static `getNull()`: `return Matrix3().fill(0);`. -/
def Matrix3.getNull {T : Type} [Zero T] [One T] : Matrix3 T :=
  (Matrix3.new : Matrix3 T).fill 0

/-- The method `isNull()`: the loops return false at the first
`mVec[j][i] != 0` and true when there is none. -/
def Matrix3.isNull {T : Type} [Zero T] [DecidableEq T] (self : Matrix3 T) : Bool :=
  range3.all fun i => range3.all fun j => !decide (self.bracket j i ≠ 0)

/-- The method `isIdentity()`: `memcmp` of the nine scalars against `Matrix3()`. -/
def Matrix3.isIdentity {T : Type} [Zero T] [One T] [DecidableEq T] (self : Matrix3 T) : Bool :=
  decide (self = Matrix3.new)

/-! ## Element-wise arithmetic -/

/-- The member `operator+(const Matrix3& m)`:
`Matrix3 t; t[i][j] = e(j,i) + m[i][j]` for all i, j. -/
def Matrix3.add {T : Type} [Zero T] [One T] [Add T] (self m : Matrix3 T) : Matrix3 T :=
  forIJ (fun i j t => t.setBracket i j (self.e j i + m.bracket i j)) Matrix3.new

/-- The member `operator-(const Matrix3& m)`:
`Matrix3 t; t[i][j] = e(j,i) - m[i][j]` for all i, j. -/
def Matrix3.sub {T : Type} [Zero T] [One T] [Sub T] (self m : Matrix3 T) : Matrix3 T :=
  forIJ (fun i j t => t.setBracket i j (self.e j i - m.bracket i j)) Matrix3.new

/-- The unary `operator-()`: `Matrix3 t; t[i][j] = -e(j,i)` for all i, j. -/
def Matrix3.neg {T : Type} [Zero T] [One T] [Neg T] (self : Matrix3 T) : Matrix3 T :=
  forIJ (fun i j t => t.setBracket i j (-(self.e j i))) Matrix3.new

/-- The member `operator*(T_scalar d)`: `Matrix3 t; t[i][j] = e(j,i) * d`. -/
def Matrix3.mulScalar {T : Type} [Zero T] [One T] [Mul T] (self : Matrix3 T) (d : T) :
    Matrix3 T :=
  forIJ (fun i j t => t.setBracket i j (self.e j i * d)) Matrix3.new

/-- The member `operator/(T_scalar d)`: `d = (T_scalar)1 / d;` once, then
`Matrix3 t; t[i][j] = e(j,i) * d` for all i, j. -/
def Matrix3.divScalar {T : Type} [Zero T] [One T] [Mul T] [Div T] (self : Matrix3 T) (d : T) :
    Matrix3 T :=
  let d := (1 : T) / d
  forIJ (fun i j t => t.setBracket i j (self.e j i * d)) Matrix3.new

/-! ## Transposition -/

/-- The in-place `transpose()`: for every i and every j,
`tmp = e(j,i); e(j,i) = e(i,j); e(i,j) = tmp;`. -/
def Matrix3.transpose {T : Type} (self : Matrix3 T) : Matrix3 T :=
  forIJ (fun i j m =>
    let tmp := m.e j i
    let m := m.setE j i (m.e i j)
    m.setE i j tmp) self

/-- The method `getTransposed()`: `Matrix3 m; m.e(j,i) = e(i,j)` for all i, j. -/
def Matrix3.getTransposed {T : Type} [Zero T] [One T] (self : Matrix3 T) : Matrix3 T :=
  forIJ (fun i j m => m.setE j i (self.e i j)) Matrix3.new

/-- The method `getTransposed(Matrix3& dest)` for a `dest` that is another
object than the receiver: `dest.e(j,i) = e(i,j)` for all i, j. -/
def Matrix3.getTransposedInto {T : Type} (self dest : Matrix3 T) : Matrix3 T :=
  forIJ (fun i j m => m.setE j i (self.e i j)) dest

/-! ## Products -/

/-- The free `operator*(const Matrix3& m2, const Matrix3& m1)`: the left
operand is `m2`, the right operand `m1`; nine assignments on `Matrix3 t`. -/
def Matrix3.mul {T : Type} [Zero T] [One T] [Add T] [Mul T] (m2 m1 : Matrix3 T) : Matrix3 T :=
  let t : Matrix3 T := Matrix3.new
  let t := t.setE 0 0 (m1.e 0 0 * m2.e 0 0 + m1.e 1 0 * m2.e 0 1 + m1.e 2 0 * m2.e 0 2)
  let t := t.setE 0 1 (m1.e 0 1 * m2.e 0 0 + m1.e 1 1 * m2.e 0 1 + m1.e 2 1 * m2.e 0 2)
  let t := t.setE 0 2 (m1.e 0 2 * m2.e 0 0 + m1.e 1 2 * m2.e 0 1 + m1.e 2 2 * m2.e 0 2)
  let t := t.setE 1 0 (m1.e 0 0 * m2.e 1 0 + m1.e 1 0 * m2.e 1 1 + m1.e 2 0 * m2.e 1 2)
  let t := t.setE 1 1 (m1.e 0 1 * m2.e 1 0 + m1.e 1 1 * m2.e 1 1 + m1.e 2 1 * m2.e 1 2)
  let t := t.setE 1 2 (m1.e 0 2 * m2.e 1 0 + m1.e 1 2 * m2.e 1 1 + m1.e 2 2 * m2.e 1 2)
  let t := t.setE 2 0 (m1.e 0 0 * m2.e 2 0 + m1.e 1 0 * m2.e 2 1 + m1.e 2 0 * m2.e 2 2)
  let t := t.setE 2 1 (m1.e 0 1 * m2.e 2 0 + m1.e 1 1 * m2.e 2 1 + m1.e 2 1 * m2.e 2 2)
  let t := t.setE 2 2 (m1.e 0 2 * m2.e 2 0 + m1.e 1 2 * m2.e 2 1 + m1.e 2 2 * m2.e 2 2)
  t

/-- Post multiplication `operator*(const Matrix3& m, const Vector3& v)`:
matrix times column vector. -/
def Matrix3.mulVec3 {T : Type} [Add T] [Mul T] (m : Matrix3 T) (v : Vector3 T) : Vector3 T :=
  { x := v.x * m.e 0 0 + v.y * m.e 0 1 + v.z * m.e 0 2
    y := v.x * m.e 1 0 + v.y * m.e 1 1 + v.z * m.e 1 2
    z := v.x * m.e 2 0 + v.y * m.e 2 1 + v.z * m.e 2 2 }

/-- Pre multiplication `operator*(const Vector3& v, const Matrix3& m)`:
row vector times matrix. -/
def Matrix3.vec3Mul {T : Type} [Add T] [Mul T] (v : Vector3 T) (m : Matrix3 T) : Vector3 T :=
  { x := v.x * m.e 0 0 + v.y * m.e 1 0 + v.z * m.e 2 0
    y := v.x * m.e 0 1 + v.y * m.e 1 1 + v.z * m.e 2 1
    z := v.x * m.e 0 2 + v.y * m.e 1 2 + v.z * m.e 2 2 }

/-! ## Inversion -/

/-- The else branch of `getInverse(Matrix3& dest)`, taken when `dest` is
another object than the receiver: the nine locals `a11 .. a33`, the cofactors
`A`, `B`, `C`, the determinant `det`, and then either `dest.fill(0)` or the
assignment of the adjugate divided by `det`.  Yields the returned scalar and
the new content of `dest`. -/
def Matrix3.getInverseElse {T : Type} [Zero T] [One T] [Add T] [Sub T] [Mul T] [Div T]
    [DecidableEq T] (self dest : Matrix3 T) : T × Matrix3 T :=
  let a11 := self.e 0 0
  let a12 := self.e 1 0
  let a13 := self.e 2 0
  let a21 := self.e 0 1
  let a22 := self.e 1 1
  let a23 := self.e 2 1
  let a31 := self.e 0 2
  let a32 := self.e 1 2
  let a33 := self.e 2 2
  let A := a33 * a22 - a32 * a23
  let B := a32 * a13 - a33 * a12
  let C := a23 * a12 - a22 * a13
  let det := a11 * A + a21 * B + a31 * C
  if det = 0 then
    (det, dest.fill 0)
  else
    (det, (Matrix3.ctor9 A B C
            (a31 * a23 - a33 * a21) (a33 * a11 - a31 * a13) (a21 * a13 - a23 * a11)
            (a32 * a21 - a31 * a22) (a31 * a12 - a32 * a11) (a22 * a11 - a21 * a12)).divScalar det)

/-- The local `det` of `getInverse(Matrix3& dest)`: the same locals and the
same expression as in `getInverseElse`, without the branch that follows. -/
def Matrix3.getInverseDet {T : Type} [Add T] [Sub T] [Mul T] (self : Matrix3 T) : T :=
  let a11 := self.e 0 0
  let a12 := self.e 1 0
  let a13 := self.e 2 0
  let a21 := self.e 0 1
  let a22 := self.e 1 1
  let a23 := self.e 2 1
  let a31 := self.e 0 2
  let a32 := self.e 1 2
  let a33 := self.e 2 2
  let A := a33 * a22 - a32 * a23
  let B := a32 * a13 - a33 * a12
  let C := a23 * a12 - a22 * a13
  a11 * A + a21 * B + a31 * C

/-- Matrix objects by address: what a `Matrix3&` or `this` points into. -/
abbrev Store (T : Type) := Nat → Matrix3 T

/-- Assignment `*a = m` to the object at address `a`. -/
def Store.write {T : Type} (st : Store T) (a : Nat) (m : Matrix3 T) : Store T :=
  fun b => if b = a then m else st b

/-- The method `getInverse(Matrix3& dest) const` with the receiver at address
`this` and the argument at address `dest`.  When `&dest == this` the inverse
is computed into the local `Matrix3 tmp` (a fresh object, so that inner call
runs the else branch) and `dest = tmp` copies it over; otherwise the else
branch writes `dest` directly.  Yields the returned scalar and the store. -/
def getInverseRef {T : Type} [Zero T] [One T] [Add T] [Sub T] [Mul T] [Div T]
    [DecidableEq T] (st : Store T) (this dest : Nat) : T × Store T :=
  if dest = this then
    let tmp : Matrix3 T := Matrix3.new
    let r := (st this).getInverseElse tmp
    let det := r.1
    let tmp := r.2
    (det, st.write dest tmp)
  else
    let r := (st this).getInverseElse (st dest)
    (r.1, st.write dest r.2)

/-- The method `getInverse(T_scalar* determinant) const` with the receiver at
address `this` and its local at address `tmp`:
`Matrix3 tmp; T_scalar det = getInverse(tmp); *determinant = det; return tmp;`.
Yields the returned matrix with the reported determinant, and the store. -/
def getInverseVal {T : Type} [Zero T] [One T] [Add T] [Sub T] [Mul T] [Div T]
    [DecidableEq T] (st : Store T) (this tmp : Nat) : (Matrix3 T × T) × Store T :=
  let st := st.write tmp Matrix3.new
  let r := getInverseRef st this tmp
  let det := r.1
  ((r.2 tmp, det), r.2)

/-- The method `invert(T_scalar* determinant)` with the receiver at address
`this`: `T_scalar det = getInverse(*this); *determinant = det; return *this;`.
Yields the reported determinant and the store (the receiver is read at `this`). -/
def invertAt {T : Type} [Zero T] [One T] [Add T] [Sub T] [Mul T] [Div T]
    [DecidableEq T] (st : Store T) (this : Nat) : T × Store T :=
  getInverseRef st this this

/-- The value view of `getInverse(T_scalar* determinant)`: the returned matrix
and the reported determinant, for a receiver at address 0 and the local `tmp`
at address 1. -/
def Matrix3.getInverse {T : Type} [Zero T] [One T] [Add T] [Sub T] [Mul T] [Div T]
    [DecidableEq T] (self : Matrix3 T) : Matrix3 T × T :=
  (getInverseVal (fun _ => self) 0 1).1

/-- The value view of `invert(T_scalar* determinant)`: the receiver after the
call and the reported determinant, for a receiver at address 0. -/
def Matrix3.invert {T : Type} [Zero T] [One T] [Add T] [Sub T] [Mul T] [Div T]
    [DecidableEq T] (self : Matrix3 T) : Matrix3 T × T :=
  let r := invertAt (fun _ => self) 0
  (r.2 0, r.1)

/-! ## Vector2 and the companion Matrix2 -/

/-- Modelled from the spec: the 2-component vector type (vl/Vector2.hpp is not
among the sources), two scalars read and written through `x()` and `y()`. -/
@[ext]
structure Vector2 (T : Type) where
  x : T
  y : T
  deriving DecidableEq

/-- Modelled from the spec: component read `v[i]` of a 2-component vector. -/
def Vector2.get {T : Type} (v : Vector2 T) (i : Fin 2) : T :=
  match i with
  | 0 => v.x
  | 1 => v.y

/-- Modelled from the spec: component write `v[i] = a` of a 2-component vector. -/
def Vector2.set {T : Type} (v : Vector2 T) (i : Fin 2) (a : T) : Vector2 T :=
  match i with
  | 0 => { v with x := a }
  | 1 => { v with y := a }

/-- Modelled from the spec: the companion 2x2 matrix type (vl/Matrix2.hpp is
not among the sources), two columns of two scalars each, with the same
`e(i,j)` accessor convention as Matrix3. -/
@[ext]
structure Matrix2 (T : Type) where
  mVec0 : Vector2 T
  mVec1 : Vector2 T
  deriving DecidableEq

/-- Modelled from the spec: column read `mVec[j]` of the companion 2x2 type. -/
def Matrix2.mVec {T : Type} (m : Matrix2 T) (j : Fin 2) : Vector2 T :=
  match j with
  | 0 => m.mVec0
  | 1 => m.mVec1

/-- Modelled from the spec: column write `mVec[j] = c` of the companion 2x2 type. -/
def Matrix2.setVec {T : Type} (m : Matrix2 T) (j : Fin 2) (c : Vector2 T) : Matrix2 T :=
  match j with
  | 0 => { m with mVec0 := c }
  | 1 => { m with mVec1 := c }

/-- Modelled from the spec: element read `e(i,j)` of the companion 2x2 type,
row i of column j as in Matrix3. -/
def Matrix2.e {T : Type} (m : Matrix2 T) (i j : Fin 2) : T :=
  (m.mVec j).get i

/-- Modelled from the spec: element write `e(i,j) = a` of the companion 2x2 type. -/
def Matrix2.setE {T : Type} (m : Matrix2 T) (i j : Fin 2) (a : T) : Matrix2 T :=
  m.setVec j ((m.mVec j).set i a)

/-- Modelled from the spec: the default constructor `Matrix2()` of the
companion 2x2 type, taken to build the identity as `Matrix3()` does.  The
only use, in `get2x2`, overwrites all four elements. -/
def Matrix2.new {T : Type} [Zero T] [One T] : Matrix2 T :=
  { mVec0 := ⟨1, 0⟩, mVec1 := ⟨0, 1⟩ }

/-- The method `get2x2()`: `Matrix2 t;` and then
`t.e(0,0) = e(0,0); t.e(1,0) = e(1,0); t.e(0,1) = e(0,1); t.e(1,1) = e(1,1);`. -/
def Matrix3.get2x2 {T : Type} [Zero T] [One T] (self : Matrix3 T) : Matrix2 T :=
  let t : Matrix2 T := Matrix2.new
  let t := t.setE 0 0 (self.e 0 0)
  let t := t.setE 1 0 (self.e 1 0)
  let t := t.setE 0 1 (self.e 0 1)
  let t := t.setE 1 1 (self.e 1 1)
  t

/-- The method `set2x2(m)`:
`e(0,0) = m.e(0,0); e(1,0) = m.e(1,0); e(0,1) = m.e(0,1); e(1,1) = m.e(1,1);`. -/
def Matrix3.set2x2 {T : Type} (self : Matrix3 T) (m : Matrix2 T) : Matrix3 T :=
  let s := self.setE 0 0 (m.e 0 0)
  let s := s.setE 1 0 (m.e 1 0)
  let s := s.setE 0 1 (m.e 0 1)
  let s := s.setE 1 1 (m.e 1 1)
  s

/-- Post multiplication `operator*(const Matrix3& m, const Vector2& v)`: the
vector is taken with z = 0 and the result has two components. -/
def Matrix3.mulVec2 {T : Type} [Add T] [Mul T] (m : Matrix3 T) (v : Vector2 T) : Vector2 T :=
  { x := v.x * m.e 0 0 + v.y * m.e 0 1
    y := v.x * m.e 1 0 + v.y * m.e 1 1 }

/-- Pre multiplication `operator*(const Vector2& v, const Matrix3& m)`: the
vector is taken with z = 0 and the result has two components. -/
def Matrix3.vec2Mul {T : Type} [Add T] [Mul T] (v : Vector2 T) (m : Matrix3 T) : Vector2 T :=
  { x := v.x * m.e 0 0 + v.y * m.e 1 0
    y := v.x * m.e 0 1 + v.y * m.e 1 1 }

/-! ## The metric diff -/

/-- The method `diff(other)`: `T_scalar err = 0;` and, for every i and j,
`if (e(j,i) > other.e(j,i)) err += e(j,i) - other.e(j,i);
else err += other.e(j,i) - e(j,i);`. -/
def Matrix3.diff {T : Type} [Zero T] [Add T] [Sub T] [LT T] [∀ a b : T, Decidable (a < b)]
    (self other : Matrix3 T) : T :=
  forIJ (fun i j err =>
    if self.e j i > other.e j i then
      err + (self.e j i - other.e j i)
    else
      err + (other.e j i - self.e j i)) 0

/-! ## Transform builders -/

/-- The static `getTranslation(x, y)`: `Matrix3 tr; tr.e(0,2) = x; tr.e(1,2) = y;`. -/
def Matrix3.getTranslation {T : Type} [Zero T] [One T] (x y : T) : Matrix3 T :=
  let tr : Matrix3 T := Matrix3.new
  let tr := tr.setE 0 2 x
  let tr := tr.setE 1 2 y
  tr

/-- The static `getTranslation(const Vector2& v)`: `getTranslation(v.x(), v.y())`. -/
def Matrix3.getTranslationVec {T : Type} [Zero T] [One T] (v : Vector2 T) : Matrix3 T :=
  Matrix3.getTranslation v.x v.y

/-- The scalar overload `translate(x, y)`: `*this = *this * getTranslation(x,y);`. -/
def Matrix3.translate {T : Type} [Zero T] [One T] [Add T] [Mul T] (self : Matrix3 T)
    (x y : T) : Matrix3 T :=
  self.mul (Matrix3.getTranslation x y)

/-- The vector overload `translate(v)`: `*this = getTranslation(v) * *this;`. -/
def Matrix3.translateVec {T : Type} [Zero T] [One T] [Add T] [Mul T] (self : Matrix3 T)
    (v : Vector2 T) : Matrix3 T :=
  (Matrix3.getTranslationVec v).mul self

/-- The static `getScaling(x, y)`: `Matrix3 sc; sc.e(0,0) = x; sc.e(1,1) = y;`. -/
def Matrix3.getScaling {T : Type} [Zero T] [One T] (x y : T) : Matrix3 T :=
  let sc : Matrix3 T := Matrix3.new
  let sc := sc.setE 0 0 x
  let sc := sc.setE 1 1 y
  sc

/-- The method `scale(x, y)`: `*this = getScaling(x,y) * *this;`. -/
def Matrix3.scale {T : Type} [Zero T] [One T] [Add T] [Mul T] (self : Matrix3 T)
    (x y : T) : Matrix3 T :=
  (Matrix3.getScaling x y).mul self

/-- The static `getRotation(degrees)`.  The library functions `sin` and `cos`
and the constant `dDEG_TO_RAD` (declared outside this header) are parameters:
`degrees = degrees * dDEG_TO_RAD; s = sin(degrees); c = cos(degrees);
rot.e(0,0) = c; rot.e(1,1) = c; rot.e(1,0) = s; rot.e(0,1) = -s;`. -/
def Matrix3.getRotation {T : Type} [Zero T] [One T] [Mul T] [Neg T] (sin cos : T → T)
    (dDEG_TO_RAD : T) (degrees : T) : Matrix3 T :=
  let rot : Matrix3 T := Matrix3.new
  let degrees := degrees * dDEG_TO_RAD
  let s := sin degrees
  let c := cos degrees
  let rot := rot.setE 0 0 c
  let rot := rot.setE 1 1 c
  let rot := rot.setE 1 0 s
  let rot := rot.setE 0 1 (-s)
  rot

/-- The method `rotate(degrees)`: `*this = getRotation(degrees) * *this;`. -/
def Matrix3.rotate {T : Type} [Zero T] [One T] [Add T] [Mul T] [Neg T] (sin cos : T → T)
    (dDEG_TO_RAD : T) (self : Matrix3 T) (degrees : T) : Matrix3 T :=
  (Matrix3.getRotation sin cos dDEG_TO_RAD degrees).mul self

/-! ## The integer instantiations imat3 and umat3 -/

/-- The converting constructor `template<typename T> explicit Matrix3(const T& m)`:
`e(0,0) = (T_scalar)m.e(0,0); e(1,0) = (T_scalar)m.e(1,0); ...`, the
conversion `(T_scalar)` of one scalar being the parameter `conv`. -/
def Matrix3.convert {S T : Type} [Zero T] (conv : S → T) (m : Matrix3 S) : Matrix3 T :=
  Matrix3.assign9 { mVec0 := ⟨0, 0, 0⟩, mVec1 := ⟨0, 0, 0⟩, mVec2 := ⟨0, 0, 0⟩ }
    (conv (m.e 0 0)) (conv (m.e 1 0)) (conv (m.e 2 0))
    (conv (m.e 0 1)) (conv (m.e 1 1)) (conv (m.e 2 1))
    (conv (m.e 0 2)) (conv (m.e 1 2)) (conv (m.e 2 2))

/-- The 32-bit scalar of `umat3 = Matrix3<GLuint>` and, read in two's
complement, of `imat3 = Matrix3<GLint>`: the integers modulo 2^32, so that
sums, differences and products wrap around. -/
abbrev Word32 : Type := ZMod (2 ^ 32)

/-- The value of a 32-bit word as a `GLint`: two's complement, from -2^31 to
2^31 - 1. -/
def Word32.toSigned (a : Word32) : Int :=
  if a.val < 2 ^ 31 then (a.val : Int) else (a.val : Int) - 2 ^ 32

/-- The quotient of `GLuint`: the quotient of the two unsigned values.  The
only division in this header is `1 / det` after the test `det == 0`, so a
zero divisor does not occur. -/
def uintDivC : Div Word32 := ⟨fun a b => ((a.val / b.val : Nat) : Word32)⟩

/-- The quotient of `GLint`: the quotient of the two signed values, truncated
toward zero, stored back as a 32-bit word.  The only division in this header
is `1 / det` after the test `det == 0`, so neither a zero divisor nor the
overflowing quotient `-2^31 / -1` occurs. -/
def sintDivC : Div Word32 := ⟨fun a b => ((Int.tdiv a.toSigned b.toSigned : Int) : Word32)⟩

/-- The method `getInverse()` of `umat3 = Matrix3<GLuint>`: 32-bit scalars
with the unsigned quotient `uintDivC`. -/
def umat3GetInverse (M : Matrix3 Word32) : Matrix3 Word32 × Word32 :=
  @Matrix3.getInverse Word32 inferInstance inferInstance inferInstance inferInstance
    inferInstance uintDivC inferInstance M

/-- The method `getInverse()` of `imat3 = Matrix3<GLint>`: 32-bit scalars
with the signed truncating quotient `sintDivC`. -/
def imat3GetInverse (M : Matrix3 Word32) : Matrix3 Word32 × Word32 :=
  @Matrix3.getInverse Word32 inferInstance inferInstance inferInstance inferInstance
    inferInstance sintDivC inferInstance M

/-! ## The mathematical reading of a Matrix3 -/

/-- The matrix `M(i,j) = e(i,j)` as a Mathlib matrix, the yardstick for the
determinant and for products. -/
def Matrix3.toMatrix {T : Type} (m : Matrix3 T) : Matrix (Fin 3) (Fin 3) T :=
  Matrix.of fun i j => m.e i j

/-! ## The affine shape -/

/-- The shape of a 2D affine transform, the invariant of the transform
builders: the bottom row is `e(2,0) = 0`, `e(2,1) = 0`, `e(2,2) = 1`. -/
def Matrix3.isAffine {T : Type} [Zero T] [One T] (m : Matrix3 T) : Prop :=
  m.e 2 0 = 0 ∧ m.e 2 1 = 0 ∧ m.e 2 2 = 1

/-! ## Sample inputs -/

/-- A singular integer matrix that is not symmetric: columns (1,2,3), (4,5,6), (7,8,9). -/
def sampleInt : Matrix3 Int := Matrix3.ctor9 1 2 3 4 5 6 7 8 9

/-- A rational matrix of determinant -3: columns (1,2,3), (4,5,6), (7,8,10). -/
def sampleRat : Matrix3 ℚ := Matrix3.ctor9 1 2 3 4 5 6 7 8 10

/-- A store holding `sampleInt` at every address. -/
def sampleStore : Store Int := fun _ => sampleInt

/-- An integer matrix of determinant 2^32: `getScaling(65536, 65536)`. -/
def sampleWrapZero : Matrix3 Int := Matrix3.getScaling 65536 65536

/-- An integer matrix whose determinant (2^31 - 1)^2 is 1 modulo 2^32:
`getScaling(2147483647, 2147483647)`. -/
def sampleWrapOne : Matrix3 Int := Matrix3.getScaling 2147483647 2147483647

/-- The integer matrix that swaps x and y, of determinant -1: columns
(0,1,0), (1,0,0), (0,0,1). -/
def sampleSwap : Matrix3 Int := Matrix3.ctor9 0 1 0 1 0 0 0 0 1

/-- A 32-bit matrix of determinant 2: `getScaling(2, 1)`. -/
def sampleDet2 : Matrix3 Word32 := Matrix3.getScaling 2 1

/-- A rational affine matrix of determinant 6: columns (2,0,0), (0,3,0), (3,4,1). -/
def sampleAffine : Matrix3 ℚ := Matrix3.ctor9 2 0 0 0 3 0 3 4 1

/-- A singular rational affine matrix: `getScaling(0, 1)`, of determinant 0. -/
def sampleAffineSingular : Matrix3 ℚ := Matrix3.getScaling 0 1

/-- The matrix `getScaling(2, 3)` with the translation column and the bottom
row overwritten: it keeps the upper left 2x2 block of `getScaling(2, 3)`. -/
def sampleScaledRest : Matrix3 Int := Matrix3.ctor9 2 0 5 0 3 6 7 8 9

/-! ## Auxiliary facts -/

/-- The starting content of the storage never shows after the nine assignments. -/
theorem Matrix3.assign9_raw {T : Type} (raw raw2 : Matrix3 T)
    (e00 e01 e02 e10 e11 e12 e20 e21 e22 : T) :
    Matrix3.assign9 raw e00 e01 e02 e10 e11 e12 e20 e21 e22
      = Matrix3.assign9 raw2 e00 e01 e02 e10 e11 e12 e20 e21 e22 := by
  rfl

/-- After `fill(val)` the object does not depend on what it held before. -/
theorem Matrix3.fill_eq {T : Type} (m : Matrix3 T) (val : T) :
    m.fill val = { mVec0 := ⟨val, val, val⟩, mVec1 := ⟨val, val, val⟩, mVec2 := ⟨val, val, val⟩ } := by
  rfl

/-- The in-place `transpose()` swaps every off-diagonal pair twice, once at
(i,j) and once at (j,i), and so gives the receiver back. -/
theorem Matrix3.transpose_eq_self {T : Type} (M : Matrix3 T) : M.transpose = M := by
  rcases M with ⟨⟨a, b, c⟩, ⟨d, e, f⟩, ⟨g, h, i⟩⟩
  rfl

/-- The result of `getTransposed()` written out column by column. -/
theorem Matrix3.getTransposed_eq {T : Type} [Zero T] [One T] (M : Matrix3 T) :
    M.getTransposed =
      { mVec0 := ⟨M.e 0 0, M.e 0 1, M.e 0 2⟩
        mVec1 := ⟨M.e 1 0, M.e 1 1, M.e 1 2⟩
        mVec2 := ⟨M.e 2 0, M.e 2 1, M.e 2 2⟩ } := by
  rcases M with ⟨⟨a, b, c⟩, ⟨d, e, f⟩, ⟨g, h, i⟩⟩
  rfl

/-- The scalar returned by the else branch is the local `det`. -/
theorem Matrix3.getInverseElse_fst {T : Type} [Zero T] [One T] [Add T] [Sub T] [Mul T] [Div T]
    [DecidableEq T] (M dest : Matrix3 T) : (M.getInverseElse dest).1 = M.getInverseDet := by
  unfold Matrix3.getInverseElse Matrix3.getInverseDet
  simp only []
  split <;> rfl

/-- When the local `det` is zero the else branch leaves `dest` zero filled. -/
theorem Matrix3.getInverseElse_snd_of_det_zero {T : Type} [Zero T] [One T] [Add T] [Sub T]
    [Mul T] [Div T] [DecidableEq T] (M dest : Matrix3 T) (h : M.getInverseDet = 0) :
    (M.getInverseElse dest).2 = dest.fill 0 := by
  unfold Matrix3.getInverseDet at h
  unfold Matrix3.getInverseElse
  simp only [] at h ⊢
  rw [if_pos h]

/-- What the else branch writes does not depend on the old content of `dest`. -/
theorem Matrix3.getInverseElse_dest {T : Type} [Zero T] [One T] [Add T] [Sub T]
    [Mul T] [Div T] [DecidableEq T] (M dest dest2 : Matrix3 T) :
    M.getInverseElse dest = M.getInverseElse dest2 := by
  unfold Matrix3.getInverseElse
  simp only [Matrix3.fill_eq]

/-- Both branches of `getInverse(Matrix3& dest)` return the else branch
scalar and store the else branch matrix at `dest`. -/
theorem getInverseRef_eq {T : Type} [Zero T] [One T] [Add T] [Sub T] [Mul T] [Div T]
    [DecidableEq T] (st : Store T) (this dest : Nat) :
    getInverseRef st this dest
      = (((st this).getInverseElse Matrix3.new).1,
          st.write dest ((st this).getInverseElse Matrix3.new).2) := by
  unfold getInverseRef
  split
  · rfl
  · rw [Matrix3.getInverseElse_dest (st this) (st dest) Matrix3.new]

/-- The local `det` is the determinant of the matrix `M(i,j) = e(i,j)`. -/
theorem Matrix3.getInverseDet_eq_det {T : Type} [CommRing T] (M : Matrix3 T) :
    M.getInverseDet = M.toMatrix.det := by
  rcases M with ⟨⟨a, b, c⟩, ⟨d, e, f⟩, ⟨g, h, i⟩⟩
  simp [Matrix3.getInverseDet, Matrix3.toMatrix, Matrix.det_fin_three, Matrix3.e, Matrix3.mVec,
    Vector3.get]
  ring

/-- The value view of `getInverse()` in terms of the else branch. -/
theorem Matrix3.getInverse_eq {T : Type} [Zero T] [One T] [Add T] [Sub T] [Mul T] [Div T]
    [DecidableEq T] (M : Matrix3 T) :
    M.getInverse = ((M.getInverseElse Matrix3.new).2, (M.getInverseElse Matrix3.new).1) := by
  simp [Matrix3.getInverse, getInverseVal, getInverseRef_eq, Store.write]

/-- The value view of `invert()` in terms of the else branch. -/
theorem Matrix3.invert_eq {T : Type} [Zero T] [One T] [Add T] [Sub T] [Mul T] [Div T]
    [DecidableEq T] (M : Matrix3 T) :
    M.invert = ((M.getInverseElse Matrix3.new).2, (M.getInverseElse Matrix3.new).1) := by
  simp [Matrix3.invert, invertAt, getInverseRef_eq, Store.write]

/-! ## Inversion: C1 to C4 -/

/-- C1: over a field, a matrix M whose determinant is not zero satisfies
`M * M.getInverse() = identity` and `M.getInverse() * M = identity`, and the
determinant that `getInverse` reports is not zero. -/
theorem getInverse_mul_cancel {T : Type} [Field T] [DecidableEq T] (M : Matrix3 T)
    (h : M.toMatrix.det ≠ 0) :
    M.mul M.getInverse.1 = Matrix3.getIdentity
      ∧ M.getInverse.1.mul M = Matrix3.getIdentity
      ∧ M.getInverse.2 ≠ 0 := by
  rw [← Matrix3.getInverseDet_eq_det] at h
  rw [Matrix3.getInverse_eq]
  rcases M with ⟨⟨a, b, c⟩, ⟨d, e, f⟩, ⟨g, h', i⟩⟩
  have hd : a * (i * e - h' * f) + d * (h' * c - i * b) + g * (f * b - e * c) ≠ 0 := h
  have key := mul_inv_cancel₀ hd
  refine ⟨?_, ?_, ?_⟩
  · simp [Matrix3.getInverseElse, Matrix3.e, Matrix3.mVec, Vector3.get, hd, Matrix3.mul,
      Matrix3.getIdentity, Matrix3.new, Matrix3.setIdentity, Matrix3.setE, Matrix3.setVec,
      Vector3.set, Matrix3.divScalar, Matrix3.ctor9, Matrix3.assign9, forIJ, range3,
      Matrix3.setBracket]
    generalize (a * (i * e - h' * f) + d * (h' * c - i * b) + g * (f * b - e * c))⁻¹ = r
      at key ⊢
    refine ⟨⟨?_, ?_, ?_⟩, ⟨?_, ?_, ?_⟩, ?_, ?_, ?_⟩ <;> first | ring1 | linear_combination key
  · simp [Matrix3.getInverseElse, Matrix3.e, Matrix3.mVec, Vector3.get, hd, Matrix3.mul,
      Matrix3.getIdentity, Matrix3.new, Matrix3.setIdentity, Matrix3.setE, Matrix3.setVec,
      Vector3.set, Matrix3.divScalar, Matrix3.ctor9, Matrix3.assign9, forIJ, range3,
      Matrix3.setBracket]
    generalize (a * (i * e - h' * f) + d * (h' * c - i * b) + g * (f * b - e * c))⁻¹ = r
      at key ⊢
    refine ⟨⟨?_, ?_, ?_⟩, ⟨?_, ?_, ?_⟩, ?_, ?_, ?_⟩ <;> first | ring1 | linear_combination key
  · rw [Matrix3.getInverseElse_fst]
    exact h

/-- Witness for C1 at the rational matrix `sampleRat`, of determinant -3. -/
theorem getInverse_mul_cancel_witness :
    sampleRat.toMatrix.det ≠ 0
      ∧ sampleRat.mul sampleRat.getInverse.1 = Matrix3.getIdentity
      ∧ sampleRat.getInverse.1.mul sampleRat = Matrix3.getIdentity
      ∧ sampleRat.getInverse.2 ≠ 0 :=
  have h : sampleRat.toMatrix.det ≠ 0 := by
    rw [← Matrix3.getInverseDet_eq_det]
    norm_num [sampleRat, Matrix3.getInverseDet, Matrix3.ctor9, Matrix3.assign9, Matrix3.e,
      Matrix3.mVec, Vector3.get, Matrix3.setE, Matrix3.setVec, Vector3.set]
  ⟨h, getInverse_mul_cancel sampleRat h⟩

/-- C2: when the determinant computed by `getInverse(dest)` is exactly zero,
the call returns 0 and leaves all nine elements of `dest` zero, whether or
not `dest` is the receiver; in particular inverting the null matrix gives the
null matrix and a reported determinant of 0. -/
theorem getInverse_det_zero {T : Type} [Ring T] [Div T] [DecidableEq T] :
    (∀ (st : Store T) (this dest : Nat), (st this).getInverseDet = 0 →
        (getInverseRef st this dest).1 = 0
          ∧ ∀ i j : Fin 3, ((getInverseRef st this dest).2 dest).e i j = 0)
      ∧ (Matrix3.getNull : Matrix3 T).getInverse = (Matrix3.getNull, 0)
      ∧ (Matrix3.getNull : Matrix3 T).invert = (Matrix3.getNull, 0) := by
  have hnull : (Matrix3.getNull : Matrix3 T).getInverseDet = 0 := by
    simp [Matrix3.getNull, Matrix3.fill_eq, Matrix3.getInverseDet, Matrix3.e, Matrix3.mVec,
      Vector3.get]
  refine ⟨?_, ?_, ?_⟩
  · intro st this dest h
    rw [getInverseRef_eq]
    refine ⟨?_, ?_⟩
    · rw [Matrix3.getInverseElse_fst]
      exact h
    · intro i j
      simp only [Store.write, if_true]
      rw [Matrix3.getInverseElse_snd_of_det_zero _ _ h, Matrix3.fill_eq]
      fin_cases i <;> fin_cases j <;> rfl
  · rw [Matrix3.getInverse_eq, Matrix3.getInverseElse_fst,
      Matrix3.getInverseElse_snd_of_det_zero _ _ hnull, hnull]
    rfl
  · rw [Matrix3.invert_eq, Matrix3.getInverseElse_fst,
      Matrix3.getInverseElse_snd_of_det_zero _ _ hnull, hnull]
    rfl

/-- Witness for C2 at the singular integer matrix `sampleInt`, receiver at
address 0 and `dest` at address 1. -/
theorem getInverse_det_zero_witness :
    (sampleStore 0).getInverseDet = 0
      ∧ (getInverseRef sampleStore 0 1).1 = 0
      ∧ ∀ i j : Fin 3, ((getInverseRef sampleStore 0 1).2 1).e i j = 0 :=
  ⟨by decide, getInverse_det_zero.1 sampleStore 0 1 (by decide)⟩

/-- C3: over a commutative ring the scalar returned by `getInverse(dest)` is
the determinant of the matrix `M(i,j) = e(i,j)`, and it is the sum of the
cofactors of the three first column positions, each weighted by the first
column element `e(0,0)`, `e(1,0)`, `e(2,0)` it belongs to. -/
theorem getInverse_returns_det {T : Type} [CommRing T] [Div T] [DecidableEq T]
    (st : Store T) (this dest : Nat) :
    (getInverseRef st this dest).1 = (st this).toMatrix.det
      ∧ (getInverseRef st this dest).1
          = (st this).e 0 0 * ((st this).e 1 1 * (st this).e 2 2 - (st this).e 1 2 * (st this).e 2 1)
            + (st this).e 1 0 * -((st this).e 0 1 * (st this).e 2 2 - (st this).e 0 2 * (st this).e 2 1)
            + (st this).e 2 0 * ((st this).e 0 1 * (st this).e 1 2 - (st this).e 0 2 * (st this).e 1 1) := by
  rw [getInverseRef_eq]
  simp only [Matrix3.getInverseElse_fst]
  refine ⟨Matrix3.getInverseDet_eq_det _, ?_⟩
  unfold Matrix3.getInverseDet
  ring

/-- C4: `invert()` leaves the receiver equal to the matrix `getInverse()`
returns for the original receiver and reports the same determinant, and a
call of `getInverse()` (whose local `tmp` is another object than the
receiver) returns that same pair and leaves the receiver as it was. -/
theorem invert_eq_getInverse {T : Type} [Zero T] [One T] [Add T] [Sub T] [Mul T] [Div T]
    [DecidableEq T] (st : Store T) (this : Nat) :
    (invertAt st this).2 this = (st this).getInverse.1
      ∧ (invertAt st this).1 = (st this).getInverse.2
      ∧ (st this).invert = (st this).getInverse
      ∧ ∀ tmp : Nat, tmp ≠ this →
          (getInverseVal st this tmp).1 = (st this).getInverse
            ∧ (getInverseVal st this tmp).2 this = st this := by
  refine ⟨?_, ?_, ?_, ?_⟩
  · simp [invertAt, getInverseRef_eq, Matrix3.getInverse_eq, Store.write]
  · simp [invertAt, getInverseRef_eq, Matrix3.getInverse_eq]
  · rw [Matrix3.invert_eq, Matrix3.getInverse_eq]
  · intro tmp htmp
    have h2 : ¬ this = tmp := fun h => htmp h.symm
    simp [getInverseVal, getInverseRef_eq, Matrix3.getInverse_eq, Store.write, h2]

/-- Witness for C4 on `sampleStore`: receiver at address 0, local at address 1. -/
theorem invert_eq_getInverse_witness :
    (1 : Nat) ≠ 0
      ∧ (getInverseVal sampleStore 0 1).1 = (sampleStore 0).getInverse
      ∧ (getInverseVal sampleStore 0 1).2 0 = sampleStore 0 :=
  ⟨by decide, (invert_eq_getInverse sampleStore 0).2.2.2 1 (by decide)⟩

/-! ## Transposition: C5 and C6 -/

/-- C5 on the code: at `sampleInt` the in-place `transpose()` returns the
receiver as it was, so element (0,1) is still 4 and not the original element
(1,0), which is 2, and the result is not what `getTransposed()` returns. -/
theorem transpose_sampleInt_unchanged :
    sampleInt.transpose = sampleInt
      ∧ sampleInt.transpose.e 0 1 = 4
      ∧ sampleInt.e 1 0 = 2
      ∧ sampleInt.transpose ≠ sampleInt.getTransposed := by
  decide

/-- C6: transposing twice gives the matrix back:
`M.getTransposed().getTransposed() = M`, and two calls of the in-place
`transpose()` leave M as it was. -/
theorem transpose_twice {T : Type} [Zero T] [One T] (M : Matrix3 T) :
    M.getTransposed.getTransposed = M ∧ M.transpose.transpose = M := by
  refine ⟨?_, ?_⟩
  · rcases M with ⟨⟨a, b, c⟩, ⟨d, e, f⟩, ⟨g, h, i⟩⟩
    rfl
  · rw [Matrix3.transpose_eq_self, Matrix3.transpose_eq_self]

/-! ## Products: C7 to C9 -/

/-- C7: over a commutative ring, element (i,j) of `A * B` is the sum over k
in 0..2 of `A.e(i,k) * B.e(k,j)`; the left operand supplies the rows. -/
theorem mul_entry {T : Type} [CommRing T] (A B : Matrix3 T) (i j : Fin 3) :
    (A.mul B).e i j = ∑ k : Fin 3, A.e i k * B.e k j := by
  rcases A with ⟨⟨a0, a1, a2⟩, ⟨a3, a4, a5⟩, ⟨a6, a7, a8⟩⟩
  rcases B with ⟨⟨b0, b1, b2⟩, ⟨b3, b4, b5⟩, ⟨b6, b7, b8⟩⟩
  fin_cases i <;> fin_cases j <;>
    simp [Matrix3.mul, Matrix3.e, Matrix3.mVec, Vector3.get, Matrix3.new, Matrix3.setIdentity,
      Matrix3.setE, Matrix3.setVec, Vector3.set, Fin.sum_univ_three] <;> ring

/-- C8: over a commutative ring `(m2 * m1) * v = m2 * (m1 * v)` for a column
vector v: the product `m2 * m1` applies m1 first and then m2. -/
theorem mul_mulVec3 {T : Type} [CommRing T] (m2 m1 : Matrix3 T) (v : Vector3 T) :
    (m2.mul m1).mulVec3 v = m2.mulVec3 (m1.mulVec3 v) := by
  rcases m1 with ⟨⟨a0, a1, a2⟩, ⟨a3, a4, a5⟩, ⟨a6, a7, a8⟩⟩
  rcases m2 with ⟨⟨b0, b1, b2⟩, ⟨b3, b4, b5⟩, ⟨b6, b7, b8⟩⟩
  rcases v with ⟨x, y, z⟩
  simp only [Matrix3.mulVec3, Matrix3.mul, Matrix3.e, Matrix3.mVec, Vector3.get, Matrix3.new,
    Matrix3.setIdentity, Matrix3.setE, Matrix3.setVec, Vector3.set]
  ext <;> simp only [] <;> ring

/-- C9: over a commutative semiring the default constructed matrix, which is
what `getIdentity()` returns, is neutral on both sides:
`identity * M = M` and `M * identity = M`. -/
theorem identity_mul_and_mul_identity {T : Type} [CommSemiring T] (M : Matrix3 T) :
    (Matrix3.getIdentity : Matrix3 T) = Matrix3.new
      ∧ (Matrix3.getIdentity : Matrix3 T).mul M = M
      ∧ M.mul Matrix3.getIdentity = M := by
  rcases M with ⟨⟨a, b, c⟩, ⟨d, e, f⟩, ⟨g, h, i⟩⟩
  refine ⟨rfl, ?_, ?_⟩ <;>
    simp [Matrix3.getIdentity, Matrix3.mul, Matrix3.e, Matrix3.mVec, Vector3.get, Matrix3.new,
      Matrix3.setIdentity, Matrix3.setE, Matrix3.setVec, Vector3.set]

/-! ## Negation: C10 -/

/-- The sum `M + (-M)` over any ring, written out. -/
theorem Matrix3.add_neg_eq {T : Type} [Ring T] (M : Matrix3 T) :
    M.add M.neg
      = { mVec0 := ⟨0, 0, 0⟩, mVec1 := ⟨0, 0, 0⟩, mVec2 := ⟨0, 0, 0⟩ } := by
  rcases M with ⟨⟨a, b, c⟩, ⟨d, e, f⟩, ⟨g, h, i⟩⟩
  simp [Matrix3.add, Matrix3.neg, forIJ, range3, Matrix3.setBracket, Matrix3.bracket,
    Matrix3.e, Matrix3.mVec, Vector3.get, Matrix3.new, Matrix3.setIdentity, Matrix3.setVec,
    Vector3.set]

/-- C10: over a ring, and so also for integers that wrap around modulo 2^w,
`M + (-M)` is the null matrix: it equals `getNull()`, all nine elements are
zero, and `isNull()` holds. -/
theorem add_neg_isNull :
    (∀ (T : Type) [Ring T] [DecidableEq T] (M : Matrix3 T),
        M.add M.neg = Matrix3.getNull
          ∧ (∀ i j : Fin 3, (M.add M.neg).e i j = 0)
          ∧ (M.add M.neg).isNull = true)
      ∧ (∀ (w : Nat) (M : Matrix3 (ZMod (2 ^ w))),
          M.add M.neg = Matrix3.getNull
            ∧ (∀ i j : Fin 3, (M.add M.neg).e i j = 0)
            ∧ (M.add M.neg).isNull = true) := by
  have gen : ∀ (T : Type) [Ring T] [DecidableEq T] (M : Matrix3 T),
      M.add M.neg = Matrix3.getNull
        ∧ (∀ i j : Fin 3, (M.add M.neg).e i j = 0)
        ∧ (M.add M.neg).isNull = true := by
    intro T _ _ M
    rw [Matrix3.add_neg_eq]
    refine ⟨rfl, ?_, ?_⟩
    · intro i j
      fin_cases i <;> fin_cases j <;> rfl
    · simp [Matrix3.isNull, range3, Matrix3.bracket, Matrix3.mVec, Vector3.get]
  exact ⟨gen, fun w M => gen (ZMod (2 ^ w)) M⟩

/-! ## Matrix times vector: C11 to C13 -/

/-- C11: over a commutative ring `M * Vector2(x,y)` is the first two
components of `M * Vector3(x,y,0)` and `Vector2(x,y) * M` is the first two
components of `Vector3(x,y,0) * M`; two matrices that agree on the upper left
2x2 block give the same results, so the translation column and the bottom row
play no part; and `getScaling(2,3) * Vector2(1,1) = (2,3)`. -/
theorem mulVec2_linear_part {T : Type} [CommRing T] :
    (∀ (M : Matrix3 T) (x y : T),
        M.mulVec2 ⟨x, y⟩ = ⟨(M.mulVec3 ⟨x, y, 0⟩).x, (M.mulVec3 ⟨x, y, 0⟩).y⟩
          ∧ Matrix3.vec2Mul ⟨x, y⟩ M
              = ⟨(Matrix3.vec3Mul ⟨x, y, 0⟩ M).x, (Matrix3.vec3Mul ⟨x, y, 0⟩ M).y⟩)
      ∧ (∀ (M N : Matrix3 T) (v : Vector2 T),
          M.e 0 0 = N.e 0 0 → M.e 0 1 = N.e 0 1 → M.e 1 0 = N.e 1 0 → M.e 1 1 = N.e 1 1 →
            M.mulVec2 v = N.mulVec2 v ∧ Matrix3.vec2Mul v M = Matrix3.vec2Mul v N)
      ∧ (Matrix3.getScaling (2 : T) 3).mulVec2 ⟨1, 1⟩ = ⟨2, 3⟩ := by
  refine ⟨?_, ?_, ?_⟩
  · intro M x y
    simp [Matrix3.mulVec2, Matrix3.mulVec3, Matrix3.vec2Mul, Matrix3.vec3Mul]
  · intro M N v h00 h01 h10 h11
    simp [Matrix3.mulVec2, Matrix3.vec2Mul, h00, h01, h10, h11]
  · simp [Matrix3.mulVec2, Matrix3.getScaling, Matrix3.e, Matrix3.mVec, Vector3.get,
      Matrix3.new, Matrix3.setIdentity, Matrix3.setE, Matrix3.setVec, Vector3.set]

/-- Witness for C11: `getScaling(2,3)` and `sampleScaledRest` agree on the
upper left 2x2 block and differ everywhere else. -/
theorem mulVec2_linear_part_witness :
    (Matrix3.getScaling (2 : Int) 3).e 0 0 = sampleScaledRest.e 0 0
      ∧ (Matrix3.getScaling (2 : Int) 3).e 0 1 = sampleScaledRest.e 0 1
      ∧ (Matrix3.getScaling (2 : Int) 3).e 1 0 = sampleScaledRest.e 1 0
      ∧ (Matrix3.getScaling (2 : Int) 3).e 1 1 = sampleScaledRest.e 1 1
      ∧ (Matrix3.getScaling (2 : Int) 3).mulVec2 ⟨1, 1⟩ = sampleScaledRest.mulVec2 ⟨1, 1⟩
      ∧ Matrix3.vec2Mul ⟨1, 1⟩ (Matrix3.getScaling (2 : Int) 3)
          = Matrix3.vec2Mul ⟨1, 1⟩ sampleScaledRest :=
  ⟨by decide, by decide, by decide, by decide,
    mulVec2_linear_part.2.1 (Matrix3.getScaling (2 : Int) 3) sampleScaledRest ⟨1, 1⟩
      (by decide) (by decide) (by decide) (by decide)⟩

/-- C12: over a commutative ring pre multiplication applies the transposed
map: `v * M = M.getTransposed() * v` for 3-component vectors and likewise for
2-component vectors. -/
theorem vecMul_eq_getTransposed_mulVec {T : Type} [CommRing T] (M : Matrix3 T) :
    (∀ v : Vector3 T, Matrix3.vec3Mul v M = M.getTransposed.mulVec3 v)
      ∧ (∀ v : Vector2 T, Matrix3.vec2Mul v M = M.getTransposed.mulVec2 v) := by
  rw [Matrix3.getTransposed_eq]
  refine ⟨?_, ?_⟩
  · intro v
    rfl
  · intro v
    rfl

/-- C13: `getTranslation(x,y)` has the elements of the identity except for
`e(0,2) = x` and `e(1,2) = y`; hence over a commutative ring
`getTranslation(x,y) * Vector3(a,b,c) = (a + x*c, b + y*c, c)`, and
`getTranslation(3,4) * Vector3(1,1,1) = (4,5,1)`. -/
theorem getTranslation_mulVec3 {T : Type} [CommRing T] (x y : T) :
    (∀ i j : Fin 3, (Matrix3.getTranslation x y).e i j
        = if i = 0 ∧ j = 2 then x
          else if i = 1 ∧ j = 2 then y
          else (Matrix3.getIdentity : Matrix3 T).e i j)
      ∧ (∀ a b c : T,
          (Matrix3.getTranslation x y).mulVec3 ⟨a, b, c⟩ = ⟨a + x * c, b + y * c, c⟩)
      ∧ (Matrix3.getTranslation (3 : T) 4).mulVec3 ⟨1, 1, 1⟩ = ⟨4, 5, 1⟩ := by
  have hmul : ∀ (p q a b c : T),
      (Matrix3.getTranslation p q).mulVec3 ⟨a, b, c⟩ = ⟨a + p * c, b + q * c, c⟩ := by
    intro p q a b c
    simp [Matrix3.mulVec3, Matrix3.getTranslation, Matrix3.e, Matrix3.mVec, Vector3.get,
      Matrix3.new, Matrix3.setIdentity, Matrix3.setE, Matrix3.setVec, Vector3.set]
    refine ⟨?_, ?_⟩ <;> ring
  refine ⟨?_, hmul x y, ?_⟩
  · intro i j
    fin_cases i <;> fin_cases j <;>
      simp [Matrix3.getTranslation, Matrix3.getIdentity, Matrix3.e, Matrix3.mVec, Vector3.get,
        Matrix3.new, Matrix3.setIdentity, Matrix3.setE, Matrix3.setVec, Vector3.set]
  · rw [hmul]
    refine Vector3.ext ?_ ?_ ?_ <;> simp only [] <;> norm_num

/-! ## In-place translation: C14 -/

/-- C14: the vector overload `translate(Vector2(x,y))` leaves the receiver
equal to `getTranslation(x,y) * M`, the scalar overload `translate(x,y)`
leaves it equal to `M * getTranslation(x,y)`, and the two differ for the
integer matrix `getScaling(2,3)` with x = y = 1. -/
theorem translate_overloads_sides :
    (∀ (T : Type) [CommRing T] (M : Matrix3 T) (x y : T),
        M.translateVec ⟨x, y⟩ = (Matrix3.getTranslation x y).mul M
          ∧ M.translate x y = M.mul (Matrix3.getTranslation x y))
      ∧ ∃ (M : Matrix3 Int) (x y : Int), M.translateVec ⟨x, y⟩ ≠ M.translate x y := by
  refine ⟨?_, ?_⟩
  · intro T _ M x y
    exact ⟨rfl, rfl⟩
  · exact ⟨Matrix3.getScaling 2 3, 1, 1, by decide⟩

/-! ## The metric diff: C15 -/

/-- One step of the loop body of `diff`: the branch on `a > b` adds the
absolute value of `a - b`. -/
theorem diff_step {T : Type} [LinearOrderedRing T] (err a b : T) :
    (if a > b then err + (a - b) else err + (b - a)) = err + |a - b| := by
  split
  · next h => rw [abs_of_pos (sub_pos.mpr h)]
  · next h => rw [abs_of_nonpos (sub_nonpos.mpr (not_lt.mp h)), neg_sub]

/-- C15: over a linearly ordered ring `A.diff(B)` is the sum over the nine
positions of `|A.e(i,j) - B.e(i,j)|`; hence `A.diff(A) = 0` and
`A.diff(B) ≥ 0`. -/
theorem diff_eq_sum_abs {T : Type} [LinearOrderedRing T] (A B : Matrix3 T) :
    A.diff B = ∑ i : Fin 3, ∑ j : Fin 3, |A.e i j - B.e i j|
      ∧ A.diff A = 0
      ∧ 0 ≤ A.diff B := by
  have hsum : ∀ (P Q : Matrix3 T),
      P.diff Q = ∑ i : Fin 3, ∑ j : Fin 3, |P.e i j - Q.e i j| := by
    intro P Q
    simp only [Matrix3.diff, forIJ, range3, List.foldl_cons, List.foldl_nil, diff_step,
      Fin.sum_univ_three]
    abel
  refine ⟨hsum A B, ?_, ?_⟩
  · rw [hsum]
    simp
  · rw [hsum]
    exact Finset.sum_nonneg fun i _ => Finset.sum_nonneg fun j _ => abs_nonneg _

/-! ## Rotation over the reals: C16 -/

/-- Two rotations compose by adding their angles, whatever the value `k` of
the constant `dDEG_TO_RAD`. -/
theorem Matrix3.getRotation_mul (k a b : ℝ) :
    (Matrix3.getRotation Real.sin Real.cos k a).mul (Matrix3.getRotation Real.sin Real.cos k b)
      = Matrix3.getRotation Real.sin Real.cos k (a + b) := by
  simp only [Matrix3.getRotation, Matrix3.mul, Matrix3.e, Matrix3.mVec, Vector3.get,
    Matrix3.new, Matrix3.setIdentity, Matrix3.setE, Matrix3.setVec, Vector3.set, add_mul,
    Real.sin_add, Real.cos_add]
  refine Matrix3.ext (Vector3.ext ?_ ?_ ?_) (Vector3.ext ?_ ?_ ?_) (Vector3.ext ?_ ?_ ?_)
    <;> simp only [] <;> ring

/-- C16: with real scalars, `sin` and `cos` the real functions and
`dDEG_TO_RAD = π / 180`, `getRotation(d)` has the elements of the identity
except `e(0,0) = e(1,1) = cos(d·π/180)`, `e(1,0) = sin(d·π/180)` and
`e(0,1) = -sin(d·π/180)`; `getRotation(a) * getRotation(b) = getRotation(a + b)`
for all a and b, and so `getRotation(90) * getRotation(90) = getRotation(180)`. -/
theorem getRotation_add :
    (∀ d : ℝ, ∀ i j : Fin 3,
        (Matrix3.getRotation Real.sin Real.cos (Real.pi / 180) d).e i j
          = if (i = 0 ∧ j = 0) ∨ (i = 1 ∧ j = 1) then Real.cos (d * (Real.pi / 180))
            else if i = 1 ∧ j = 0 then Real.sin (d * (Real.pi / 180))
            else if i = 0 ∧ j = 1 then -Real.sin (d * (Real.pi / 180))
            else (Matrix3.getIdentity : Matrix3 ℝ).e i j)
      ∧ (∀ a b : ℝ,
          (Matrix3.getRotation Real.sin Real.cos (Real.pi / 180) a).mul
              (Matrix3.getRotation Real.sin Real.cos (Real.pi / 180) b)
            = Matrix3.getRotation Real.sin Real.cos (Real.pi / 180) (a + b))
      ∧ (Matrix3.getRotation Real.sin Real.cos (Real.pi / 180) 90).mul
            (Matrix3.getRotation Real.sin Real.cos (Real.pi / 180) 90)
          = Matrix3.getRotation Real.sin Real.cos (Real.pi / 180) 180 := by
  have hadd := Matrix3.getRotation_mul (Real.pi / 180)
  refine ⟨?_, hadd, ?_⟩
  · intro d i j
    fin_cases i <;> fin_cases j <;>
      simp [Matrix3.getRotation, Matrix3.getIdentity, Matrix3.e, Matrix3.mVec, Vector3.get,
        Matrix3.new, Matrix3.setIdentity, Matrix3.setE, Matrix3.setVec, Vector3.set]
  · rw [hadd]
    norm_num

/-! ## The 2x2 block: C17 -/

/-- C17: `set2x2(m)` writes `e(0,0)`, `e(1,0)`, `e(0,1)`, `e(1,1)` and nothing
else: the translation column entries `e(0,2)`, `e(1,2)` and the bottom row
`e(2,0)`, `e(2,1)`, `e(2,2)` keep their values, and `get2x2()` afterwards
returns exactly m. -/
theorem set2x2_frame {T : Type} [Zero T] [One T] (M : Matrix3 T) (m : Matrix2 T) :
    (M.set2x2 m).e 0 2 = M.e 0 2
      ∧ (M.set2x2 m).e 1 2 = M.e 1 2
      ∧ (M.set2x2 m).e 2 0 = M.e 2 0
      ∧ (M.set2x2 m).e 2 1 = M.e 2 1
      ∧ (M.set2x2 m).e 2 2 = M.e 2 2
      ∧ (M.set2x2 m).e 0 0 = m.e 0 0
      ∧ (M.set2x2 m).e 1 0 = m.e 1 0
      ∧ (M.set2x2 m).e 0 1 = m.e 0 1
      ∧ (M.set2x2 m).e 1 1 = m.e 1 1
      ∧ (M.set2x2 m).get2x2 = m := by
  rcases M with ⟨⟨a, b, c⟩, ⟨d, e, f⟩, ⟨g, h, i⟩⟩
  rcases m with ⟨⟨p, q⟩, ⟨r, s⟩⟩
  exact ⟨rfl, rfl, rfl, rfl, rfl, rfl, rfl, rfl, rfl, rfl⟩

/-! ## The integer instantiations: C18 -/

/-- The value view of `getInverse()` for a receiver whose local `det` is not
zero: the cofactor matrix scaled by the reciprocal `1 / det` that `operator/`
precomputes, and `det` itself. -/
theorem Matrix3.getInverse_of_det_ne_zero {T : Type} [Zero T] [One T] [Add T] [Sub T] [Mul T]
    [Div T] [DecidableEq T] (M : Matrix3 T) (h : M.getInverseDet ≠ 0) :
    M.getInverse =
      ((Matrix3.ctor9
          (M.e 2 2 * M.e 1 1 - M.e 1 2 * M.e 2 1) (M.e 1 2 * M.e 2 0 - M.e 2 2 * M.e 1 0)
          (M.e 2 1 * M.e 1 0 - M.e 1 1 * M.e 2 0) (M.e 0 2 * M.e 2 1 - M.e 2 2 * M.e 0 1)
          (M.e 2 2 * M.e 0 0 - M.e 0 2 * M.e 2 0) (M.e 0 1 * M.e 2 0 - M.e 2 1 * M.e 0 0)
          (M.e 1 2 * M.e 0 1 - M.e 0 2 * M.e 1 1) (M.e 0 2 * M.e 1 0 - M.e 1 2 * M.e 0 0)
          (M.e 1 1 * M.e 0 0 - M.e 0 1 * M.e 1 0)).mulScalar (1 / M.getInverseDet),
        M.getInverseDet) := by
  rw [Matrix3.getInverse_eq]
  unfold Matrix3.getInverseDet at h
  unfold Matrix3.getInverseElse Matrix3.getInverseDet
  simp only [] at h ⊢
  rw [if_neg h]
  rfl

/-- The value view of `getInverse()` for a receiver whose local `det` is zero. -/
theorem Matrix3.getInverse_of_det_zero {T : Type} [Zero T] [One T] [Add T] [Sub T] [Mul T]
    [Div T] [DecidableEq T] (M : Matrix3 T) (h : M.getInverseDet = 0) :
    M.getInverse = (Matrix3.getNull, 0) := by
  rw [Matrix3.getInverse_eq, Matrix3.getInverseElse_fst,
    Matrix3.getInverseElse_snd_of_det_zero _ _ h, h]
  rfl

/-- The product of M with its cofactor matrix scaled by r is the identity
scaled by `r * det`. -/
theorem mul_scaled_adjugate {T : Type} [CommRing T] (M : Matrix3 T) (r : T) :
    M.mul ((Matrix3.ctor9
          (M.e 2 2 * M.e 1 1 - M.e 1 2 * M.e 2 1) (M.e 1 2 * M.e 2 0 - M.e 2 2 * M.e 1 0)
          (M.e 2 1 * M.e 1 0 - M.e 1 1 * M.e 2 0) (M.e 0 2 * M.e 2 1 - M.e 2 2 * M.e 0 1)
          (M.e 2 2 * M.e 0 0 - M.e 0 2 * M.e 2 0) (M.e 0 1 * M.e 2 0 - M.e 2 1 * M.e 0 0)
          (M.e 1 2 * M.e 0 1 - M.e 0 2 * M.e 1 1) (M.e 0 2 * M.e 1 0 - M.e 1 2 * M.e 0 0)
          (M.e 1 1 * M.e 0 0 - M.e 0 1 * M.e 1 0)).mulScalar r)
      = (Matrix3.getIdentity : Matrix3 T).mulScalar (r * M.getInverseDet) := by
  rcases M with ⟨⟨a, b, c⟩, ⟨d, e, f⟩, ⟨g, h, i⟩⟩
  simp only [Matrix3.mul, Matrix3.mulScalar, Matrix3.getInverseDet, Matrix3.getIdentity,
    Matrix3.ctor9, Matrix3.assign9, forIJ, range3, List.foldl_cons, List.foldl_nil,
    Matrix3.setBracket, Matrix3.e, Matrix3.mVec, Vector3.get, Matrix3.new,
    Matrix3.setIdentity, Matrix3.setE, Matrix3.setVec, Vector3.set]
  refine Matrix3.ext (Vector3.ext ?_ ?_ ?_) (Vector3.ext ?_ ?_ ?_) (Vector3.ext ?_ ?_ ?_)
    <;> simp only [] <;> ring

/-- Every matrix scaled by 0 is the null matrix. -/
theorem mulScalar_zero {T : Type} [CommRing T] (X : Matrix3 T) :
    X.mulScalar 0 = Matrix3.getNull := by
  rcases X with ⟨⟨a, b, c⟩, ⟨d, e, f⟩, ⟨g, h, i⟩⟩
  simp [Matrix3.mulScalar, forIJ, range3, Matrix3.setBracket, Matrix3.e, Matrix3.mVec,
    Vector3.get, Matrix3.new, Matrix3.setIdentity, Matrix3.setVec, Vector3.set,
    Matrix3.getNull, Matrix3.fill_eq]

/-- The identity scaled by c is the identity exactly when c = 1. -/
theorem identity_mulScalar_eq_iff {T : Type} [CommRing T] (c : T) :
    (Matrix3.getIdentity : Matrix3 T).mulScalar c = Matrix3.getIdentity ↔ c = 1 := by
  constructor
  · intro h
    have h00 := congrArg (fun m => m.e 0 0) h
    simpa [Matrix3.mulScalar, Matrix3.getIdentity, forIJ, range3, Matrix3.setBracket,
      Matrix3.e, Matrix3.mVec, Vector3.get, Matrix3.new, Matrix3.setIdentity, Matrix3.setVec,
      Vector3.set] using h00
  · intro h
    rw [h]
    simp [Matrix3.mulScalar, Matrix3.getIdentity, forIJ, range3, Matrix3.setBracket,
      Matrix3.e, Matrix3.mVec, Vector3.get, Matrix3.new, Matrix3.setIdentity, Matrix3.setVec,
      Vector3.set]

/-- A 32-bit word is its own signed value stored back. -/
theorem Word32.toSigned_cast (a : Word32) : ((a.toSigned : Int) : Word32) = a := by
  have hv : ((a.val : Nat) : Word32) = a := ZMod.natCast_zmod_val a
  have h32 : (4294967296 : Word32) = 0 := by decide
  unfold Word32.toSigned
  split
  · push_cast
    exact hv
  · push_cast
    rw [hv, h32, sub_zero]

/-- The unsigned reciprocal `1 / d` is 1 for d = 1 and 0 otherwise. -/
theorem uintDivC_one_div (d : Word32) :
    @HDiv.hDiv Word32 Word32 Word32 (@instHDiv Word32 uintDivC) 1 d = if d = 1 then 1 else 0 := by
  have hv : ((d.val : Nat) : Word32) = d := ZMod.natCast_zmod_val d
  have h1 : (1 : Word32).val = 1 := by decide
  show (((1 : Word32).val / d.val : Nat) : Word32) = if d = 1 then 1 else 0
  rw [h1]
  by_cases hd : d = 1
  · rw [if_pos hd, hd, h1]
    decide
  · rw [if_neg hd]
    have hne : d.val ≠ 1 := by
      intro h
      apply hd
      rw [← hv, h]
      decide
    rcases Nat.lt_or_ge d.val 2 with hlt | hge
    · have h0 : d.val = 0 := by omega
      rw [h0]
      decide
    · rw [Nat.div_eq_of_lt (by omega)]
      decide

/-- The truncating reciprocal `1 / d` of integers is 0 as soon as `|d| ≥ 2`. -/
theorem one_tdiv_of_two_le_abs (d : Int) (h : 2 ≤ |d|) : Int.tdiv 1 d = 0 := by
  rcases le_or_lt 0 d with hd | hd
  · rw [abs_of_nonneg hd] at h
    exact Int.tdiv_eq_zero_of_lt (by decide) (by omega)
  · rw [abs_of_neg hd] at h
    have h1 : Int.tdiv 1 (-d) = 0 := Int.tdiv_eq_zero_of_lt (by decide) (by omega)
    have h2 := Int.tdiv_neg 1 (-d)
    rw [neg_neg, h1] at h2
    simpa using h2

/-- The signed reciprocal `1 / d` is 1 for d = 1, -1 for d = -1 and 0
otherwise. -/
theorem sintDivC_one_div (d : Word32) :
    @HDiv.hDiv Word32 Word32 Word32 (@instHDiv Word32 sintDivC) 1 d
      = if d.toSigned = 1 then 1 else if d.toSigned = -1 then -1 else 0 := by
  have h1 : (1 : Word32).toSigned = 1 := by decide
  show ((Int.tdiv (1 : Word32).toSigned d.toSigned : Int) : Word32) = _
  rw [h1]
  by_cases hs1 : d.toSigned = 1
  · rw [if_pos hs1, hs1]
    decide
  · rw [if_neg hs1]
    by_cases hs2 : d.toSigned = -1
    · rw [if_pos hs2, hs2]
      decide
    · rw [if_neg hs2]
      by_cases hs0 : d.toSigned = 0
      · rw [hs0]
        decide
      · have habs : 2 ≤ |d.toSigned| := by
          rcases le_or_lt 0 d.toSigned with hp | hn
          · rw [abs_of_nonneg hp]
            omega
          · rw [abs_of_neg hn]
            omega
        rw [one_tdiv_of_two_le_abs _ habs]
        decide

/-- No product with the null matrix is the identity over 32-bit words. -/
theorem mul_getNull_ne_identity (M : Matrix3 Word32) :
    M.mul Matrix3.getNull ≠ Matrix3.getIdentity := by
  intro h
  have h00 := congrArg (fun m => m.e 0 0) h
  simp [Matrix3.mul, Matrix3.getNull, Matrix3.fill_eq, Matrix3.getIdentity, Matrix3.e,
    Matrix3.mVec, Vector3.get, Matrix3.new, Matrix3.setIdentity, Matrix3.setE,
    Matrix3.setVec, Vector3.set] at h00
  exact absurd h00 (by decide)

/-- The determinant the 32-bit code computes for a converted integer matrix
is the integer determinant reduced modulo 2^32. -/
theorem Matrix3.det_convert_intCast (M : Matrix3 Int) :
    (M.convert (Int.cast : Int → Word32)).toMatrix.det = ((M.toMatrix.det : Int) : Word32) := by
  rw [← Matrix3.getInverseDet_eq_det, ← Matrix3.getInverseDet_eq_det]
  rcases M with ⟨⟨a, b, c⟩, ⟨d, e, f⟩, ⟨g, h, i⟩⟩
  simp only [Matrix3.convert, Matrix3.assign9, Matrix3.getInverseDet, Matrix3.e, Matrix3.mVec,
    Vector3.get, Matrix3.setE, Matrix3.setVec, Vector3.set]
  push_cast
  ring

/-- The unsigned inverse of a 32-bit matrix, by cases on its determinant. -/
theorem umat3GetInverse_eq (M : Matrix3 Word32) :
    (M.getInverseDet = 0 → umat3GetInverse M = (Matrix3.getNull, 0))
      ∧ (M.getInverseDet = 1 → M.mul (umat3GetInverse M).1 = Matrix3.getIdentity)
      ∧ (M.getInverseDet ≠ 0 → M.getInverseDet ≠ 1 →
          umat3GetInverse M = (Matrix3.getNull, M.getInverseDet)) := by
  refine ⟨?_, ?_, ?_⟩
  · intro h0
    exact @Matrix3.getInverse_of_det_zero Word32 inferInstance inferInstance inferInstance
      inferInstance inferInstance uintDivC inferInstance M h0
  · intro h1
    have hne : M.getInverseDet ≠ 0 := by
      rw [h1]
      decide
    have hinv := @Matrix3.getInverse_of_det_ne_zero Word32 inferInstance inferInstance
      inferInstance inferInstance inferInstance uintDivC inferInstance M hne
    unfold umat3GetInverse
    rw [hinv, uintDivC_one_div, if_pos h1, mul_scaled_adjugate, identity_mulScalar_eq_iff, h1]
    decide
  · intro hne hne1
    have hinv := @Matrix3.getInverse_of_det_ne_zero Word32 inferInstance inferInstance
      inferInstance inferInstance inferInstance uintDivC inferInstance M hne
    unfold umat3GetInverse
    rw [hinv, uintDivC_one_div, if_neg hne1, mulScalar_zero]

/-- The signed inverse of a 32-bit matrix, by cases on the signed value of
its determinant. -/
theorem imat3GetInverse_eq (M : Matrix3 Word32) :
    (M.getInverseDet = 0 → imat3GetInverse M = (Matrix3.getNull, 0))
      ∧ (M.getInverseDet.toSigned = 1 ∨ M.getInverseDet.toSigned = -1 →
          M.mul (imat3GetInverse M).1 = Matrix3.getIdentity)
      ∧ (M.getInverseDet ≠ 0 → M.getInverseDet.toSigned ≠ 1 → M.getInverseDet.toSigned ≠ -1 →
          imat3GetInverse M = (Matrix3.getNull, M.getInverseDet)) := by
  refine ⟨?_, ?_, ?_⟩
  · intro h0
    exact @Matrix3.getInverse_of_det_zero Word32 inferInstance inferInstance inferInstance
      inferInstance inferInstance sintDivC inferInstance M h0
  · intro h1
    have hcast := Word32.toSigned_cast M.getInverseDet
    have hne : M.getInverseDet ≠ 0 := by
      intro h0
      rw [h0] at h1
      revert h1
      decide
    have hinv := @Matrix3.getInverse_of_det_ne_zero Word32 inferInstance inferInstance
      inferInstance inferInstance inferInstance sintDivC inferInstance M hne
    unfold imat3GetInverse
    rw [hinv, sintDivC_one_div, mul_scaled_adjugate, identity_mulScalar_eq_iff]
    rcases h1 with h1 | h1
    · rw [if_pos h1]
      rw [h1] at hcast
      rw [← hcast]
      decide
    · rw [if_neg (by rw [h1]; decide), if_pos h1]
      rw [h1] at hcast
      rw [← hcast]
      decide
  · intro hne hne1 hne2
    have hinv := @Matrix3.getInverse_of_det_ne_zero Word32 inferInstance inferInstance
      inferInstance inferInstance inferInstance sintDivC inferInstance M hne
    unfold imat3GetInverse
    rw [hinv, sintDivC_one_div, if_neg hne1, if_neg hne2, mulScalar_zero]

/-- Counterexample to C18 as stated, on the 32-bit scalars of `umat3` and
`imat3`.  `getScaling(65536,65536)` has integer determinant 2^32, of absolute
value at least 2, yet the reported determinant is 0.
`getScaling(2147483647,2147483647)` has an integer determinant of absolute
value at least 2 that is neither 1 nor -1, yet the reported determinant is 1,
the returned matrix is the matrix itself, not the null matrix, and
`M * getInverse(M)` is the identity.  The swap matrix has integer determinant
-1, yet for `umat3` the returned matrix is null and the product is not the
identity. -/
theorem int32_getInverse_wraps :
    (2 ≤ |sampleWrapZero.toMatrix.det|
        ∧ umat3GetInverse (sampleWrapZero.convert Int.cast) = (Matrix3.getNull, 0)
        ∧ imat3GetInverse (sampleWrapZero.convert Int.cast) = (Matrix3.getNull, 0))
      ∧ (2 ≤ |sampleWrapOne.toMatrix.det|
        ∧ sampleWrapOne.toMatrix.det ≠ 1 ∧ sampleWrapOne.toMatrix.det ≠ -1
        ∧ umat3GetInverse (sampleWrapOne.convert Int.cast)
            = (sampleWrapOne.convert Int.cast, 1)
        ∧ imat3GetInverse (sampleWrapOne.convert Int.cast)
            = (sampleWrapOne.convert Int.cast, 1)
        ∧ sampleWrapOne.convert (Int.cast : Int → Word32) ≠ Matrix3.getNull
        ∧ (sampleWrapOne.convert Int.cast).mul
              (umat3GetInverse (sampleWrapOne.convert Int.cast)).1 = Matrix3.getIdentity
        ∧ (sampleWrapOne.convert Int.cast).mul
              (imat3GetInverse (sampleWrapOne.convert Int.cast)).1 = Matrix3.getIdentity)
      ∧ (sampleSwap.toMatrix.det = -1
        ∧ umat3GetInverse (sampleSwap.convert Int.cast) = (Matrix3.getNull, -1)
        ∧ (sampleSwap.convert Int.cast).mul
              (umat3GetInverse (sampleSwap.convert Int.cast)).1 ≠ Matrix3.getIdentity) := by
  refine ⟨⟨?_, by decide, by decide⟩,
    ⟨?_, ?_, ?_, by decide, by decide, by decide, by decide, by decide⟩,
    ⟨?_, by decide, by decide⟩⟩ <;>
    rw [← Matrix3.getInverseDet_eq_det] <;> decide

/-- C18 (amended): for the integer instantiations, whose 32-bit scalars wrap
around modulo 2^32, let det be the determinant in that arithmetic.  For
`umat3`, if det is at least 2 as an unsigned value then `getInverse` returns
the null matrix and reports det, which is not zero, and `M * getInverse(M)`
is the identity exactly when det is 1.  For `imat3`, if the signed value of
det has absolute value at least 2 then `getInverse` returns the null matrix
and reports det, which is not zero, and `M * getInverse(M)` is the identity
exactly when the signed value of det is 1 or -1. -/
theorem int32_getInverse_truncates (M : Matrix3 Word32) :
    (2 ≤ M.toMatrix.det.val →
        umat3GetInverse M = (Matrix3.getNull, M.toMatrix.det)
          ∧ (umat3GetInverse M).2 ≠ 0)
      ∧ (M.mul (umat3GetInverse M).1 = Matrix3.getIdentity ↔ M.toMatrix.det = 1)
      ∧ (2 ≤ |M.toMatrix.det.toSigned| →
        imat3GetInverse M = (Matrix3.getNull, M.toMatrix.det)
          ∧ (imat3GetInverse M).2 ≠ 0)
      ∧ (M.mul (imat3GetInverse M).1 = Matrix3.getIdentity
          ↔ M.toMatrix.det.toSigned = 1 ∨ M.toMatrix.det.toSigned = -1) := by
  rw [← Matrix3.getInverseDet_eq_det]
  obtain ⟨hu0, hu1, hu2⟩ := umat3GetInverse_eq M
  obtain ⟨hs0, hs1, hs2⟩ := imat3GetInverse_eq M
  refine ⟨?_, ?_, ?_, ?_⟩
  · intro h
    have hne : M.getInverseDet ≠ 0 := by
      intro h0
      rw [h0] at h
      revert h
      decide
    have hne1 : M.getInverseDet ≠ 1 := by
      intro h1
      rw [h1] at h
      revert h
      decide
    rw [hu2 hne hne1]
    exact ⟨rfl, hne⟩
  · constructor
    · intro hprod
      by_contra hne1
      by_cases h0 : M.getInverseDet = 0
      · rw [hu0 h0] at hprod
        exact mul_getNull_ne_identity M hprod
      · rw [hu2 h0 hne1] at hprod
        exact mul_getNull_ne_identity M hprod
    · exact hu1
  · intro h
    have hne : M.getInverseDet ≠ 0 := by
      intro h0
      rw [h0] at h
      revert h
      decide
    have hne1 : M.getInverseDet.toSigned ≠ 1 := by
      intro h1
      rw [h1] at h
      revert h
      decide
    have hne2 : M.getInverseDet.toSigned ≠ -1 := by
      intro h1
      rw [h1] at h
      revert h
      decide
    rw [hs2 hne hne1 hne2]
    exact ⟨rfl, hne⟩
  · constructor
    · intro hprod
      by_contra hcon
      rw [not_or] at hcon
      by_cases h0 : M.getInverseDet = 0
      · rw [hs0 h0] at hprod
        exact mul_getNull_ne_identity M hprod
      · rw [hs2 h0 hcon.1 hcon.2] at hprod
        exact mul_getNull_ne_identity M hprod
    · exact hs1

/-- Witness for C18 at the 32-bit matrix `getScaling(2,1)`, of determinant 2:
both integer inverses are the null matrix with reported determinant 2. -/
theorem int32_getInverse_truncates_witness :
    2 ≤ sampleDet2.toMatrix.det.val
      ∧ (umat3GetInverse sampleDet2 = (Matrix3.getNull, sampleDet2.toMatrix.det)
          ∧ (umat3GetInverse sampleDet2).2 ≠ 0)
      ∧ 2 ≤ |sampleDet2.toMatrix.det.toSigned|
      ∧ (imat3GetInverse sampleDet2 = (Matrix3.getNull, sampleDet2.toMatrix.det)
          ∧ (imat3GetInverse sampleDet2).2 ≠ 0) :=
  have hu : 2 ≤ sampleDet2.toMatrix.det.val := by
    rw [← Matrix3.getInverseDet_eq_det]
    decide
  have hs : 2 ≤ |sampleDet2.toMatrix.det.toSigned| := by
    rw [← Matrix3.getInverseDet_eq_det]
    decide
  ⟨hu, (int32_getInverse_truncates sampleDet2).1 hu, hs,
    (int32_getInverse_truncates sampleDet2).2.2.1 hs⟩

/-! ## Constructor layout and associativity: C19 and C20 -/

/-- C19: the nine-argument constructor fills column by column: argument k
(k in 0..8) is stored at `e(k mod 3, k div 3)`, so the second argument, the
parameter named `e01`, sits at row 1, column 0, and the transposed matrix has
the rows (a0,a1,a2), (a3,a4,a5), (a6,a7,a8). -/
theorem ctor9_column_major {T : Type} [Zero T] [One T] (a : Fin 9 → T) :
    (∀ k : Fin 9,
        (Matrix3.ctor9 (a 0) (a 1) (a 2) (a 3) (a 4) (a 5) (a 6) (a 7) (a 8)).e
            ⟨k.val % 3, Nat.mod_lt _ (by decide)⟩ ⟨k.val / 3, by omega⟩ = a k)
      ∧ (Matrix3.ctor9 (a 0) (a 1) (a 2) (a 3) (a 4) (a 5) (a 6) (a 7) (a 8)).e 1 0 = a 1
      ∧ (∀ r c : Fin 3,
          (Matrix3.ctor9 (a 0) (a 1) (a 2) (a 3) (a 4) (a 5) (a 6) (a 7) (a 8)).getTransposed.e r c
            = a ⟨3 * r.val + c.val, by omega⟩) := by
  refine ⟨?_, rfl, ?_⟩
  · intro k
    fin_cases k <;> rfl
  · intro r c
    fin_cases r <;> fin_cases c <;> rfl

/-- C20: over a commutative ring the matrix product is associative:
`(A * B) * C = A * (B * C)`. -/
theorem mul_assoc3 {T : Type} [CommRing T] (A B C : Matrix3 T) :
    (A.mul B).mul C = A.mul (B.mul C) := by
  rcases A with ⟨⟨a0, a1, a2⟩, ⟨a3, a4, a5⟩, ⟨a6, a7, a8⟩⟩
  rcases B with ⟨⟨b0, b1, b2⟩, ⟨b3, b4, b5⟩, ⟨b6, b7, b8⟩⟩
  rcases C with ⟨⟨c0, c1, c2⟩, ⟨c3, c4, c5⟩, ⟨c6, c7, c8⟩⟩
  simp only [Matrix3.mul, Matrix3.e, Matrix3.mVec, Vector3.get, Matrix3.new,
    Matrix3.setIdentity, Matrix3.setE, Matrix3.setVec, Vector3.set]
  refine Matrix3.ext (Vector3.ext ?_ ?_ ?_) (Vector3.ext ?_ ?_ ?_) (Vector3.ext ?_ ?_ ?_)
    <;> simp only [] <;> ring

/-! ## Links to Mathlib matrices -/

/-- The product `A * B` read as Mathlib matrices is the matrix product. -/
theorem Matrix3.toMatrix_mul {T : Type} [CommRing T] (A B : Matrix3 T) :
    (A.mul B).toMatrix = A.toMatrix * B.toMatrix := by
  rcases A with ⟨⟨a0, a1, a2⟩, ⟨a3, a4, a5⟩, ⟨a6, a7, a8⟩⟩
  rcases B with ⟨⟨b0, b1, b2⟩, ⟨b3, b4, b5⟩, ⟨b6, b7, b8⟩⟩
  ext i j
  fin_cases i <;> fin_cases j <;>
    simp [Matrix3.toMatrix, Matrix.mul_apply, Matrix3.mul, Matrix3.e, Matrix3.mVec, Vector3.get,
      Matrix3.new, Matrix3.setIdentity, Matrix3.setE, Matrix3.setVec, Vector3.set,
      Fin.sum_univ_three] <;> ring

/-- The default constructed matrix read as a Mathlib matrix is 1. -/
theorem Matrix3.toMatrix_getIdentity {T : Type} [CommRing T] :
    (Matrix3.getIdentity : Matrix3 T).toMatrix = 1 := by
  ext i j
  fin_cases i <;> fin_cases j <;>
    simp [Matrix3.toMatrix, Matrix3.getIdentity, Matrix3.e, Matrix3.mVec, Vector3.get,
      Matrix3.new, Matrix3.setIdentity]

/-- Two matrices with the same Mathlib reading are equal. -/
theorem Matrix3.toMatrix_injective {T : Type} (A B : Matrix3 T)
    (h : A.toMatrix = B.toMatrix) : A = B := by
  have he : ∀ i j : Fin 3, A.e i j = B.e i j := fun i j => congrFun (congrFun h i) j
  rcases A with ⟨⟨a0, a1, a2⟩, ⟨a3, a4, a5⟩, ⟨a6, a7, a8⟩⟩
  rcases B with ⟨⟨b0, b1, b2⟩, ⟨b3, b4, b5⟩, ⟨b6, b7, b8⟩⟩
  have h00 := he 0 0
  have h10 := he 1 0
  have h20 := he 2 0
  have h01 := he 0 1
  have h11 := he 1 1
  have h21 := he 2 1
  have h02 := he 0 2
  have h12 := he 1 2
  have h22 := he 2 2
  simp only [Matrix3.e, Matrix3.mVec, Vector3.get] at h00 h10 h20 h01 h11 h21 h02 h12 h22
  subst h00 h10 h20 h01 h11 h21 h02 h12 h22
  rfl

/-- Over a field, for a matrix of non-zero determinant the product of M with
the matrix `getInverse()` returns is the identity. -/
theorem Matrix3.mul_getInverse_of_det_ne_zero {T : Type} [Field T] [DecidableEq T]
    (M : Matrix3 T) (h : M.getInverseDet ≠ 0) :
    M.mul M.getInverse.1 = Matrix3.getIdentity := by
  rw [Matrix3.getInverse_eq]
  rcases M with ⟨⟨a, b, c⟩, ⟨d, e, f⟩, ⟨g, h', i⟩⟩
  have hd : a * (i * e - h' * f) + d * (h' * c - i * b) + g * (f * b - e * c) ≠ 0 := h
  have key := mul_inv_cancel₀ hd
  simp [Matrix3.getInverseElse, Matrix3.e, Matrix3.mVec, Vector3.get, hd, Matrix3.mul,
    Matrix3.getIdentity, Matrix3.new, Matrix3.setIdentity, Matrix3.setE, Matrix3.setVec,
    Vector3.set, Matrix3.divScalar, Matrix3.ctor9, Matrix3.assign9, forIJ, range3,
    Matrix3.setBracket]
  generalize (a * (i * e - h' * f) + d * (h' * c - i * b) + g * (f * b - e * c))⁻¹ = r
    at key ⊢
  refine ⟨⟨?_, ?_, ?_⟩, ⟨?_, ?_, ?_⟩, ?_, ?_, ?_⟩ <;> first | ring1 | linear_combination key

/-- Over a field, for a matrix of non-zero determinant `getInverse()` returns
the Mathlib inverse and reports the Mathlib determinant. -/
theorem Matrix3.getInverse_toMatrix {T : Type} [Field T] [DecidableEq T]
    (M : Matrix3 T) (h : M.toMatrix.det ≠ 0) :
    M.getInverse.1.toMatrix = M.toMatrix⁻¹ ∧ M.getInverse.2 = M.toMatrix.det := by
  have hd : M.getInverseDet ≠ 0 := by rwa [Matrix3.getInverseDet_eq_det]
  refine ⟨?_, ?_⟩
  · have hmul := congrArg Matrix3.toMatrix (Matrix3.mul_getInverse_of_det_ne_zero M hd)
    rw [Matrix3.toMatrix_mul, Matrix3.toMatrix_getIdentity] at hmul
    exact (Matrix.inv_eq_right_inv hmul).symm
  · rw [Matrix3.getInverse_eq, Matrix3.getInverseElse_fst, Matrix3.getInverseDet_eq_det]

/-! ## The affine shape: C21 -/

/-- The transform builders return matrices of affine shape. -/
theorem Matrix3.isAffine_builders {T : Type} [CommRing T] (x y : T) (sin cos : T → T)
    (k d : T) :
    (Matrix3.getTranslation x y).isAffine ∧ (Matrix3.getScaling x y).isAffine
      ∧ (Matrix3.getRotation sin cos k d).isAffine :=
  ⟨⟨rfl, rfl, rfl⟩, ⟨rfl, rfl, rfl⟩, ⟨rfl, rfl, rfl⟩⟩

/-- The product of two matrices of affine shape has affine shape. -/
theorem Matrix3.isAffine_mul {T : Type} [CommRing T] (A B : Matrix3 T)
    (hA : A.isAffine) (hB : B.isAffine) : (A.mul B).isAffine := by
  rcases A with ⟨⟨a0, a1, a2⟩, ⟨a3, a4, a5⟩, ⟨a6, a7, a8⟩⟩
  rcases B with ⟨⟨b0, b1, b2⟩, ⟨b3, b4, b5⟩, ⟨b6, b7, b8⟩⟩
  simp only [Matrix3.isAffine, Matrix3.e, Matrix3.mVec, Vector3.get] at hA hB
  obtain ⟨hA0, hA1, hA2⟩ := hA
  obtain ⟨hB0, hB1, hB2⟩ := hB
  subst hA0 hA1 hA2 hB0 hB1 hB2
  simp [Matrix3.isAffine, Matrix3.mul, Matrix3.e, Matrix3.mVec, Vector3.get, Matrix3.new,
    Matrix3.setIdentity, Matrix3.setE, Matrix3.setVec, Vector3.set]

/-- Over a field the matrix that the else branch of `getInverse(dest)` writes
for an affine matrix of non-zero determinant has affine shape. -/
theorem Matrix3.isAffine_getInverseElse {T : Type} [Field T] [DecidableEq T]
    (M dest : Matrix3 T) (hM : M.isAffine) (h : M.toMatrix.det ≠ 0) :
    (M.getInverseElse dest).2.isAffine := by
  rw [← Matrix3.getInverseDet_eq_det] at h
  rcases M with ⟨⟨a, b, c⟩, ⟨d, e, f⟩, ⟨g, h', i⟩⟩
  simp only [Matrix3.isAffine, Matrix3.e, Matrix3.mVec, Vector3.get] at hM
  obtain ⟨h0, h1, h2⟩ := hM
  subst h0 h1 h2
  have hd : a * e + -(d * b) ≠ 0 := fun h0 => h (by
    show a * ((1 : T) * e - h' * 0) + d * (h' * 0 - 1 * b) + g * (0 * b - e * 0) = 0
    linear_combination h0)
  simp [Matrix3.isAffine, Matrix3.getInverseElse, Matrix3.e, Matrix3.mVec, Vector3.get, hd,
    Matrix3.new, Matrix3.setIdentity, Matrix3.setE, Matrix3.setVec, Vector3.set,
    Matrix3.divScalar, Matrix3.ctor9, Matrix3.assign9, forIJ, range3, Matrix3.setBracket]
  field_simp
  ring

/-- Counterexample to C21 as stated: the rational matrix `getScaling(0,1)` has
affine shape and determinant 0, so `invert()` leaves the null matrix (and
reports 0), whose bottom row is (0, 0, 0): the receiver is no longer affine. -/
theorem invert_singular_affine_not_affine :
    sampleAffineSingular.isAffine
      ∧ sampleAffineSingular.invert = (Matrix3.getNull, 0)
      ∧ ¬ sampleAffineSingular.invert.1.isAffine := by
  have hdet : sampleAffineSingular.getInverseDet = 0 := by
    simp [sampleAffineSingular, Matrix3.getScaling, Matrix3.getInverseDet, Matrix3.e,
      Matrix3.mVec, Vector3.get, Matrix3.new, Matrix3.setIdentity, Matrix3.setE,
      Matrix3.setVec, Vector3.set]
  have hinv : sampleAffineSingular.invert = (Matrix3.getNull, 0) := by
    rw [Matrix3.invert_eq, Matrix3.getInverseElse_fst,
      Matrix3.getInverseElse_snd_of_det_zero _ _ hdet, hdet]
    rfl
  refine ⟨⟨rfl, rfl, rfl⟩, hinv, ?_⟩
  rw [hinv]
  simp [Matrix3.isAffine, Matrix3.getNull, Matrix3.fill_eq, Matrix3.e, Matrix3.mVec,
    Vector3.get]

/-- C21 (amended): the builders `getTranslation`, `getScaling`, `getRotation`
return matrices of affine shape; the product of two affine matrices is
affine; over a field `getInverse()` of an affine matrix with non-zero
determinant is affine; hence `translate` (both overloads), `scale` and
`rotate` keep an affine receiver affine, and `invert` keeps an affine receiver
with non-zero determinant affine. -/
theorem affine_preserved :
    (∀ (T : Type) [CommRing T] (x y k d : T) (sin cos : T → T),
        (Matrix3.getTranslation x y).isAffine ∧ (Matrix3.getScaling x y).isAffine
          ∧ (Matrix3.getRotation sin cos k d).isAffine)
      ∧ (∀ (T : Type) [CommRing T] (A B : Matrix3 T),
          A.isAffine → B.isAffine → (A.mul B).isAffine)
      ∧ (∀ (T : Type) [Field T] [DecidableEq T] (M : Matrix3 T),
          M.isAffine → M.toMatrix.det ≠ 0 → M.getInverse.1.isAffine)
      ∧ (∀ (T : Type) [CommRing T] (M : Matrix3 T) (x y k d : T) (sin cos : T → T),
          M.isAffine →
            (M.translate x y).isAffine ∧ (M.translateVec ⟨x, y⟩).isAffine
              ∧ (M.scale x y).isAffine ∧ (Matrix3.rotate sin cos k M d).isAffine)
      ∧ (∀ (T : Type) [Field T] [DecidableEq T] (M : Matrix3 T),
          M.isAffine → M.toMatrix.det ≠ 0 → M.invert.1.isAffine) := by
  refine ⟨?_, ?_, ?_, ?_, ?_⟩
  · intro T _ x y k d sin cos
    exact Matrix3.isAffine_builders x y sin cos k d
  · intro T _ A B hA hB
    exact Matrix3.isAffine_mul A B hA hB
  · intro T _ _ M hM h
    rw [Matrix3.getInverse_eq]
    exact Matrix3.isAffine_getInverseElse M _ hM h
  · intro T _ M x y k d sin cos hM
    have hb := Matrix3.isAffine_builders x y sin cos k d
    exact ⟨Matrix3.isAffine_mul _ _ hM hb.1, Matrix3.isAffine_mul _ _ hb.1 hM,
      Matrix3.isAffine_mul _ _ hb.2.1 hM, Matrix3.isAffine_mul _ _ hb.2.2 hM⟩
  · intro T _ _ M hM h
    rw [Matrix3.invert_eq]
    exact Matrix3.isAffine_getInverseElse M _ hM h

/-- Witness for C21 at the rational affine matrix `sampleAffine`, of
determinant 6: its square, its inverse, its translations, scaling and
rotation, and the receiver after `invert()` are affine. -/
theorem affine_preserved_witness :
    sampleAffine.isAffine ∧ sampleAffine.toMatrix.det ≠ 0
      ∧ (sampleAffine.mul sampleAffine).isAffine
      ∧ sampleAffine.getInverse.1.isAffine
      ∧ ((sampleAffine.translate 3 4).isAffine ∧ (sampleAffine.translateVec ⟨3, 4⟩).isAffine
          ∧ (sampleAffine.scale 3 4).isAffine
          ∧ (Matrix3.rotate (fun t => t) (fun t => t) 1 sampleAffine 2).isAffine)
      ∧ sampleAffine.invert.1.isAffine :=
  have hA : sampleAffine.isAffine := ⟨rfl, rfl, rfl⟩
  have hd : sampleAffine.toMatrix.det ≠ 0 := by
    rw [← Matrix3.getInverseDet_eq_det]
    norm_num [sampleAffine, Matrix3.getInverseDet, Matrix3.ctor9, Matrix3.assign9, Matrix3.e,
      Matrix3.mVec, Vector3.get, Matrix3.setE, Matrix3.setVec, Vector3.set]
  ⟨hA, hd, affine_preserved.2.1 ℚ sampleAffine sampleAffine hA hA,
    affine_preserved.2.2.1 ℚ sampleAffine hA hd,
    affine_preserved.2.2.2.1 ℚ sampleAffine 3 4 1 2 (fun t => t) (fun t => t) hA,
    affine_preserved.2.2.2.2 ℚ sampleAffine hA hd⟩

/-! ## Inversion is an involution: C22 -/

/-- C22: over a field, for a matrix M of non-zero determinant det,
`M.getInverse().getInverse() = M`, and the determinant reported when
`M.getInverse()` is inverted is `1 / det`, det being the determinant of M,
which is also what `getInverse()` reports for M. -/
theorem getInverse_involution {T : Type} [Field T] [DecidableEq T] (M : Matrix3 T)
    (h : M.toMatrix.det ≠ 0) :
    M.getInverse.1.getInverse.1 = M
      ∧ M.getInverse.1.getInverse.2 = 1 / M.toMatrix.det
      ∧ M.getInverse.1.getInverse.2 = 1 / M.getInverse.2 := by
  obtain ⟨hN, hNd⟩ := Matrix3.getInverse_toMatrix M h
  have hdetN : M.getInverse.1.toMatrix.det = (M.toMatrix.det)⁻¹ := by
    rw [hN, Matrix.det_nonsing_inv, Ring.inverse_eq_inv']
  have hN0 : M.getInverse.1.toMatrix.det ≠ 0 := by
    rw [hdetN]
    exact inv_ne_zero h
  obtain ⟨hP, hPd⟩ := Matrix3.getInverse_toMatrix M.getInverse.1 hN0
  refine ⟨?_, ?_, ?_⟩
  · apply Matrix3.toMatrix_injective
    rw [hP, hN]
    exact Matrix.nonsing_inv_nonsing_inv _ (isUnit_iff_ne_zero.mpr h)
  · rw [hPd, hdetN, one_div]
  · rw [hPd, hdetN, hNd, one_div]

/-- Witness for C22 at the rational matrix `sampleRat`, of determinant -3. -/
theorem getInverse_involution_witness :
    sampleRat.toMatrix.det ≠ 0
      ∧ sampleRat.getInverse.1.getInverse.1 = sampleRat
      ∧ sampleRat.getInverse.1.getInverse.2 = 1 / sampleRat.toMatrix.det
      ∧ sampleRat.getInverse.1.getInverse.2 = 1 / sampleRat.getInverse.2 :=
  have h : sampleRat.toMatrix.det ≠ 0 := by
    rw [← Matrix3.getInverseDet_eq_det]
    norm_num [sampleRat, Matrix3.getInverseDet, Matrix3.ctor9, Matrix3.assign9, Matrix3.e,
      Matrix3.mVec, Vector3.get, Matrix3.setE, Matrix3.setVec, Vector3.set]
  ⟨h, getInverse_involution sampleRat h⟩

end vl
